import Mathlib

/-!
# Verification of the winit event-loop and X11 input/IME subsystem

A shallow embedding of the core of the `winit` windowing library
(event-loop control flow, input-method negotiation and rebuild, XKB
compose pipeline, and the X11 frame-extents heuristic), together with
proofs about the embedded definitions.

Conventions used throughout:
* machine integers are modelled as `Nat` / `Int`, with explicit wrapping
  or saturation where the Rust code relies on it;
* a Rust function that can panic (`assert!`, `unwrap`, `expect`,
  `unimplemented!`, `unreachable!`) is modelled as an `Option`- or
  outcome-returning function, `none` (or a `panicked` constructor)
  standing for the panic;
* calls into the native toolkit (Xlib, xkbcommon, AppKit) are modelled
  as explicit oracle parameters describing the toolkit's responses.
-/

namespace Winit

/-- `std::time::Instant`, modelled as a natural number of abstract ticks. -/
abbrev Instant := Nat

/-- `ControlFlow` from `src/event_loop.rs`: set by the user callback,
indicates the desired behaviour of the event loop after `EventsCleared`. -/
inductive ControlFlow
  | Wait
  | WaitUntil (t : Instant)
  | Poll
  | Exit
deriving DecidableEq, Repr

/-- `impl Default for ControlFlow` in `src/event_loop.rs`: the default is `Poll`. -/
def ControlFlow.default : ControlFlow := ControlFlow.Poll

/-- `StartCause`: the reason a `NewEvents` bracketing event was emitted.
Modelled from the spec and from the uses in
`src/platform_impl/macos/app_state.rs` (`src/events.rs` itself is not
present under `src/`). -/
inductive StartCause
  | ResumeTimeReached (start : Instant) (requested_resume : Instant)
  | WaitCancelled (start : Instant) (requested_resume : Option Instant)
  | Poll
  | Init
deriving DecidableEq, Repr

/-- Modelled from the spec: the portable `Event` union (spec §3; the file
`src/events.rs` declared by `lib.rs` is not present under `src/`).  Window,
device and user payloads are abstracted to naturals: the loop machinery
never inspects them. -/
inductive Event
  | NewEvents (cause : StartCause)
  | WindowEvent (window_id : Nat) (payload : Nat)
  | DeviceEvent (device_id : Nat) (payload : Nat)
  | UserEvent (value : Nat)
  | EventsCleared
  | LoopDestroyed
  | Suspended (b : Bool)
deriving DecidableEq, Repr

/-- The user callback: receives one event and the current `ControlFlow`
value, and returns the (possibly re-assigned) `ControlFlow` value.  A
callback that "makes no assignment" returns its argument unchanged. -/
abbrev Callback := Event → ControlFlow → ControlFlow

/-- The global `Handler` of `src/platform_impl/macos/app_state.rs`
(lines 70-79), minus the boxed callback (passed explicitly) and the
`EventLoopWaker` (whose start/stop/start_at calls have no effect on the
callback-visible state). -/
structure Handler where
  ready : Bool
  control_flow : ControlFlow
  control_flow_prev : ControlFlow
  start_time : Option Instant
  pending_events : List Event
deriving DecidableEq, Repr

/-- `Default::default()` for the lazily-initialized `HANDLER` static:
not ready, both control-flow cells `Poll` (the `ControlFlow` default),
no start time, no pending events. -/
def Handler.default : Handler :=
  { ready := false
    control_flow := ControlFlow.Poll
    control_flow_prev := ControlFlow.Poll
    start_time := none
    pending_events := [] }

/-- The state a handler is in whenever a run-loop turn begins: ready, a
start time recorded by the previous `cleared`, a non-`Exit` control flow
(otherwise the previous `cleared` would have stopped the app), and an
empty pending queue. -/
def Handler.live (h : Handler) : Prop :=
  h.ready = true ∧ (∃ s, h.start_time = some s) ∧
    h.control_flow ≠ ControlFlow.Exit ∧ h.pending_events = []

namespace AppState

/-- `Handler::handle_nonuser_event`: invoke the callback on one event with
a mutable borrow of `control_flow`.  Returns the new handler state and the
list (here a singleton) of callback invocations performed. -/
def handle_nonuser_event (cb : Callback) (h : Handler) (ev : Event) :
    Handler × List Event :=
  ({ h with control_flow := cb ev h.control_flow }, [ev])

/-- `AppState::launched` (app_state.rs lines 157-161): mark the handler
ready, start the waker, and emit `NewEvents(Init)`. -/
def launched (cb : Callback) (h : Handler) : Handler × List Event :=
  handle_nonuser_event cb { h with ready := true } (Event.NewEvents StartCause.Init)

/-- The `cause` selection of `AppState::wakeup` (app_state.rs lines
166-186), a function of the control-flow value read (and simultaneously
saved as `control_flow_prev`), the saved start time and the current time. -/
def wakeup_cause (cf : ControlFlow) (start now : Instant) : StartCause :=
  match cf with
  | ControlFlow.Poll => StartCause.Poll
  | ControlFlow.Wait => StartCause.WaitCancelled start none
  | ControlFlow.WaitUntil requested_resume =>
      if now ≥ requested_resume then
        StartCause.ResumeTimeReached start requested_resume
      else
        StartCause.WaitCancelled start (some requested_resume)
  | ControlFlow.Exit => StartCause.Poll

/-- `AppState::wakeup` (app_state.rs lines 163-188): no-op unless ready;
`get_start_time().unwrap()` panics (modelled as `none`) when no start time
has been recorded; otherwise saves `control_flow` into `control_flow_prev`
and emits `NewEvents(cause)`. -/
def wakeup (cb : Callback) (now : Instant) (h : Handler) :
    Option (Handler × List Event) :=
  if h.ready = false then some (h, [])
  else
    match h.start_time with
    | none => none
    | some start =>
        let h1 := { h with control_flow_prev := h.control_flow }
        some (handle_nonuser_event cb h1
          (Event.NewEvents (wakeup_cause h.control_flow start now)))

/-- `AppState::queue_event` (app_state.rs lines 190-195): push one event
onto the pending queue (no callback invocation). -/
def queue_event (h : Handler) (ev : Event) : Handler :=
  { h with pending_events := h.pending_events ++ [ev] }

/-- The event-dispatch loop inside `AppState::cleared` (app_state.rs lines
207-210): dispatch each taken event in FIFO order, or-ing `will_stop` with
an `is_control_flow_exit` check after each invocation.  Returns the new
handler, the invocation trace, and the accumulated `will_stop`. -/
def dispatch_events (cb : Callback) (h : Handler) (ws : Bool) :
    List Event → Handler × List Event × Bool
  | [] => (h, [], ws)
  | ev :: rest =>
      let (h1, tr1) := handle_nonuser_event cb h ev
      let ws1 := ws || decide (h1.control_flow = ControlFlow.Exit)
      let (h2, tr2, ws2) := dispatch_events cb h1 ws1 rest
      (h2, tr1 ++ tr2, ws2)

/-- `AppState::cleared` (app_state.rs lines 204-226): no-op unless ready.
Otherwise: `will_stop` starts as the Exit check, the pending events are
taken and dispatched, `EventsCleared` is emitted, `will_stop` is or-ed
with a final Exit check; if it is set the app is stopped (`Bool` result
`true`); otherwise the start time is recorded and the waker reconfigured —
the `(Exit, _) | (_, Exit) => unreachable!()` arm of that match is a
panic, modelled as `none`; the remaining arms only touch the waker. -/
def cleared (cb : Callback) (now : Instant) (h : Handler) :
    Option (Handler × List Event × Bool) :=
  if h.ready = false then some (h, [], false)
  else
    let ws0 := decide (h.control_flow = ControlFlow.Exit)
    let evs := h.pending_events
    let h0 := { h with pending_events := ([] : List Event) }
    let (h1, tr1, ws1) := dispatch_events cb h0 ws0 evs
    let (h2, tr2) := handle_nonuser_event cb h1 Event.EventsCleared
    let ws2 := ws1 || decide (h2.control_flow = ControlFlow.Exit)
    if ws2 then some (h2, tr1 ++ tr2, true)
    else
      let h3 := { h2 with start_time := some now }
      if h3.control_flow_prev = ControlFlow.Exit ∨ h3.control_flow = ControlFlow.Exit
      then none
      else some (h3, tr1 ++ tr2, false)

/-- `AppState::exit` (app_state.rs lines 153-155): emit `LoopDestroyed`. -/
def exit (cb : Callback) (h : Handler) : Handler × List Event :=
  handle_nonuser_event cb h Event.LoopDestroyed

end AppState

/-- Modelled from the spec: one turn of the macOS run loop as driven by the
control-flow observers and the application delegate (the files
`observer.rs` and `app_delegate.rs` declared by
`src/platform_impl/macos/mod.rs` are not present under `src/`): the
begin-of-turn observer calls `AppState::wakeup`, the native events of the
turn are queued via `AppState::queue_event`, and the end-of-turn observer
calls `AppState::cleared`. -/
def iterate (cb : Callback) (evs : List Event) (now : Instant) (h : Handler) :
    Option (Handler × List Event × Bool) := do
  let (h1, tr1) ← AppState.wakeup cb now h
  let h2 := evs.foldl AppState.queue_event h1
  let (h3, tr3, stopped) ← AppState.cleared cb now h2
  pure (h3, tr1 ++ tr3, stopped)

/-- Modelled from the spec: the tail of the run loop, one `iterate` per
run-loop turn; when `cleared` stops the app, `AppState::exit` is invoked
exactly once and the loop terminates (spec §4.1 step 4).  Each list entry
gives that turn's natively-queued events and its current time.  The `Bool`
result records whether the loop terminated via `Exit`. -/
def runFrom (cb : Callback) (h : Handler) :
    List (List Event × Instant) → Option (List Event × Bool)
  | [] => some ([], false)
  | (evs, now) :: rest => do
      let (h1, tr, stopped) ← iterate cb evs now h
      if stopped then
        let (_, trExit) := AppState.exit cb h1
        pure (tr ++ trExit, true)
      else
        let (trRest, st) ← runFrom cb h1 rest
        pure (tr ++ trRest, st)

/-- Modelled from the spec: the whole loop.  The application delegate
calls `AppState::launched` when the application finishes launching (still
within the first run-loop turn, whose natively-queued events are
`launchEvents` and whose end-of-turn observer runs `cleared` at time
`t0`); every subsequent turn is an `iterate`.  The user callback has been
installed by `AppState::set_callback` before launch. -/
def runLoop (cb : Callback) (launchEvents : List Event) (t0 : Instant)
    (iters : List (List Event × Instant)) : Option (List Event × Bool) := do
  let (h1, tr1) := AppState.launched cb Handler.default
  let h2 := launchEvents.foldl AppState.queue_event h1
  let (h3, tr3, stopped) ← AppState.cleared cb t0 h2
  if stopped then
    let (_, trExit) := AppState.exit cb h3
    pure (tr1 ++ tr3 ++ trExit, true)
  else
    let (trRest, st) ← runFrom cb h3 iters
    pure (tr1 ++ tr3 ++ trRest, st)

/-- The cause selection exactly as claim C2 states it, for comparison with
the code's `wakeup_cause`: `Poll` when the previous value was `Poll`;
`WaitCancelled {start, requested_resume: None}` when it was `Wait`; for
`WaitUntil t`, `ResumeTimeReached` when the current time has reached `t`
and otherwise `WaitCancelled {start, requested_resume: Some t}`; no cause
is prescribed for `Exit`. -/
def newEventsCauseSpec : ControlFlow → Instant → Instant → Option StartCause
  | ControlFlow.Poll, _, _ => some StartCause.Poll
  | ControlFlow.Wait, start, _ => some (StartCause.WaitCancelled start none)
  | ControlFlow.WaitUntil t, start, now =>
      some (if now ≥ t then StartCause.ResumeTimeReached start t
            else StartCause.WaitCancelled start (some t))
  | ControlFlow.Exit, _, _ => none

/-- A callback that assigns `ControlFlow::Wait` while handling
`NewEvents(Init)` and makes no assignment on any other event (used to
exhibit that the control-flow value persists across iterations). -/
def assignWaitAtInit : Callback := fun ev cf =>
  match ev with
  | Event.NewEvents StartCause.Init => ControlFlow.Wait
  | _ => cf

/-! ## `EventLoopProxy::send_event` (claim C4)

`src/platform_impl/macos/event_loop.rs` lines 605-630. -/

/-- `EventLoopClosed` from `src/event_loop.rs`: the error returned when a
proxy wakes a loop that no longer exists. -/
inductive EventLoopClosed
  | closed
deriving DecidableEq, Repr

/-- The outcome of calling a Rust function that may panic: either a panic
with its message, or a normal return. -/
inductive CallOutcome (α : Type)
  | panicked (msg : String)
  | returns (a : α)
deriving DecidableEq, Repr

namespace Proxy

/-- `Proxy::<T>::send_event` from `src/platform_impl/macos/event_loop.rs`
(lines 605-630): the body begins with `unimplemented!()`, so every call
panics before reaching the (unreachable) event-posting code.  The panic
message is the one `unimplemented!()` produces. -/
def send_event (T : Type) (_event : T) :
    CallOutcome (Except EventLoopClosed Unit) :=
  CallOutcome.panicked ("not implemented")

end Proxy

/-! ## Input-method negotiation (claim C5)

`src/platform/linux/x11/ime/input_method.rs`. -/

/-- The X server side of negotiation: for a locale-modifier string, the
result of `XSetLocaleModifiers` + `XOpenIM` — `some h` is a non-null
`XIM` handle, `none` is a null return. -/
abbrev OpenImOracle := String → Option Nat

/-- `InputMethod` (input_method.rs lines 31-41): a successfully opened
input method together with the locale-modifier name that opened it. -/
structure InputMethod where
  im : Nat
  name : String
deriving DecidableEq, Repr

/-- `InputMethodResult` (input_method.rs lines 43-53): which tier the
successful locale modifier came from, or failure of every tier. -/
inductive InputMethodResult
  | XModifiers (im : InputMethod)
  | XimServers (im : InputMethod)
  | Fallbacks (im : InputMethod)
  | Failure
deriving DecidableEq, Repr

/-- `InputMethodResult::ok` (input_method.rs lines 55-63). -/
def InputMethodResult.ok : InputMethodResult → Option InputMethod
  | InputMethodResult.XModifiers im => some im
  | InputMethodResult.XimServers im => some im
  | InputMethodResult.Fallbacks im => some im
  | InputMethodResult.Failure => none

/-- `PotentialInputMethod` (input_method.rs lines 144-174): one candidate
locale-modifier name with its last-attempt-failed flag. -/
structure PotentialInputMethod where
  name : String
  failed : Bool
deriving DecidableEq, Repr

/-- `PotentialInputMethod::from_string` / `from_str`: a fresh candidate
with `failed = false`. -/
def PotentialInputMethod.from_string (s : String) : PotentialInputMethod :=
  { name := s, failed := false }

/-- `PotentialInputMethod::reset` (input_method.rs lines 165-167). -/
def PotentialInputMethod.reset (p : PotentialInputMethod) : PotentialInputMethod :=
  { p with failed := false }

/-- `PotentialInputMethod::open_im` (input_method.rs lines 169-173): try
to open, record failure in the flag, and wrap a success with the name. -/
def PotentialInputMethod.open_im (oracle : OpenImOracle) (p : PotentialInputMethod) :
    PotentialInputMethod × Option InputMethod :=
  let im := oracle p.name
  ({ p with failed := im.isNone },
   im.map (fun h => { im := h, name := p.name }))

/-- `PotentialInputMethods` (input_method.rs lines 179-197): the three
candidate tiers — `XMODIFIERS` environment value, server-advertised XIM
servers, and the two static fallbacks. -/
structure PotentialInputMethods where
  xmodifiers : Option PotentialInputMethod
  xim_servers : Option (List PotentialInputMethod)
  fallbacks : List PotentialInputMethod
deriving DecidableEq, Repr

/-- `PotentialInputMethods::new` (input_method.rs lines 199-238), as a
function of the `XMODIFIERS` environment value (absent when the variable
is undefined) and of the (possibly failed) `XIM_SERVERS` root-window
property query.  The fallback array is fixed: `"@im=local"` (the local
input method) then `"@im="` (the implementation-dependent default). -/
def PotentialInputMethods.new (xmodifiers_env : Option String)
    (xim_server_names : Option (List String)) : PotentialInputMethods :=
  { xmodifiers := xmodifiers_env.map PotentialInputMethod.from_string
    xim_servers := xim_server_names.map (fun l => l.map PotentialInputMethod.from_string)
    fallbacks := [PotentialInputMethod.from_string ("@im=local"),
                  PotentialInputMethod.from_string ("@im=")] }

/-- `PotentialInputMethods::reset` (input_method.rs lines 242-256): clear
the `failed` flag of every candidate in every tier. -/
def PotentialInputMethods.reset (pim : PotentialInputMethods) : PotentialInputMethods :=
  { xmodifiers := pim.xmodifiers.map PotentialInputMethod.reset
    xim_servers := pim.xim_servers.map (fun l => l.map PotentialInputMethod.reset)
    fallbacks := pim.fallbacks.map PotentialInputMethod.reset }

/-- The `for locale in locales { ... if success return }` pattern of
`PotentialInputMethods::open_im`: try candidates left to right, stopping
at the first success.  Returns the updated candidate list (tried ones
have updated flags, untried ones are untouched), the list of names tried,
and the successful `InputMethod` if any. -/
def tryEach (oracle : OpenImOracle) :
    List PotentialInputMethod →
    List PotentialInputMethod × List String × Option InputMethod
  | [] => ([], [], none)
  | p :: rest =>
      let (p1, r) := p.open_im oracle
      match r with
      | some im => (p1 :: rest, [p.name], some im)
      | none =>
          let (rest1, names, res) := tryEach oracle rest
          (p1 :: rest1, p.name :: names, res)

/-- `PotentialInputMethods::open_im` (input_method.rs lines 258-287):
reset every flag, then try the `XMODIFIERS` tier, the server tier in
server order, and the fallback tier, stopping at the first success and
tagging the result with its tier.  The returned name list records, in
order, every locale modifier for which the native open was attempted. -/
def PotentialInputMethods.open_im (oracle : OpenImOracle)
    (pim0 : PotentialInputMethods) :
    PotentialInputMethods × List String × InputMethodResult :=
  let pim := pim0.reset
  match pim.xmodifiers with
  | some locale =>
      let (l1, r) := locale.open_im oracle
      match r with
      | some im => ({ pim with xmodifiers := some l1 }, [locale.name],
                    InputMethodResult.XModifiers im)
      | none =>
          let pim1 := { pim with xmodifiers := some l1 }
          let names1 := [locale.name]
          match pim1.xim_servers with
          | some locales =>
              let (ls, names2, r2) := tryEach oracle locales
              let pim2 := { pim1 with xim_servers := some ls }
              match r2 with
              | some im => (pim2, names1 ++ names2, InputMethodResult.XimServers im)
              | none =>
                  let (fb, names3, r3) := tryEach oracle pim2.fallbacks
                  let pim3 := { pim2 with fallbacks := fb }
                  match r3 with
                  | some im => (pim3, names1 ++ names2 ++ names3,
                                InputMethodResult.Fallbacks im)
                  | none => (pim3, names1 ++ names2 ++ names3,
                             InputMethodResult.Failure)
          | none =>
              let (fb, names3, r3) := tryEach oracle pim1.fallbacks
              let pim3 := { pim1 with fallbacks := fb }
              match r3 with
              | some im => (pim3, names1 ++ names3, InputMethodResult.Fallbacks im)
              | none => (pim3, names1 ++ names3, InputMethodResult.Failure)
  | none =>
      match pim.xim_servers with
      | some locales =>
          let (ls, names2, r2) := tryEach oracle locales
          let pim2 := { pim with xim_servers := some ls }
          match r2 with
          | some im => (pim2, names2, InputMethodResult.XimServers im)
          | none =>
              let (fb, names3, r3) := tryEach oracle pim2.fallbacks
              let pim3 := { pim2 with fallbacks := fb }
              match r3 with
              | some im => (pim3, names2 ++ names3, InputMethodResult.Fallbacks im)
              | none => (pim3, names2 ++ names3, InputMethodResult.Failure)
      | none =>
          let (fb, names3, r3) := tryEach oracle pim.fallbacks
          let pim3 := { pim with fallbacks := fb }
          match r3 with
          | some im => (pim3, names3, InputMethodResult.Fallbacks im)
          | none => (pim3, names3, InputMethodResult.Failure)

/-- The complete candidate order of a `PotentialInputMethods` value:
environment tier, then server tier in server order, then the static
fallbacks. -/
def candidateNames (pim : PotentialInputMethods) : List String :=
  (pim.xmodifiers.map PotentialInputMethod.name).toList
    ++ (pim.xim_servers.getD []).map PotentialInputMethod.name
    ++ pim.fallbacks.map PotentialInputMethod.name

/-- The attempt sequence exactly as claim C5 states it, for comparison:
try each candidate in order, stopping at (and including) the first one
the oracle opens. -/
def negotiationOrderSpec (oracle : OpenImOracle) : List String → List String
  | [] => []
  | n :: rest =>
      if (oracle n).isSome then [n] else n :: negotiationOrderSpec oracle rest

/-! ## IME contexts and the destroy/rebuild protocol (claim C6)

`src/platform/linux/x11/ime/context.rs`, `inner.rs`, `callbacks.rs`,
`mod.rs`. -/

/-- An X11 window id. -/
abbrev Window := Nat

/-- An on-screen preedit spot, `ffi::XPoint { x, y }` (two `c_short`s). -/
structure XPoint where
  x : Int
  y : Int
deriving DecidableEq, Repr

/-- The X server side of `XCreateIC` (with or without a preedit spot):
`some ic` is a non-null input-context handle for the given input method
and window, `none` a null return. -/
abbrev CreateIcOracle := Nat → Window → Option Nat

/-- `ImeContext` (context.rs lines 13-16): a native input-context handle
and the last recorded preedit spot. -/
structure ImeContext where
  ic : Nat
  ic_spot : XPoint
deriving DecidableEq, Repr

/-- `ImeContext::new` (context.rs lines 19-38): create a native context
(with the given spot when one is supplied); a null handle is the `Null`
error; the recorded spot defaults to `(0, 0)` when none was supplied. -/
def ImeContext.new (createIc : CreateIcOracle) (im : Nat) (window : Window)
    (ic_spot : Option XPoint) : Option ImeContext :=
  (createIc im window).map fun ic =>
    { ic := ic, ic_spot := ic_spot.getD { x := 0, y := 0 } }

/-- `ImeContext::set_spot` (context.rs lines 104-126): no-op when the spot
is unchanged; otherwise record the new spot and issue one native
`XSetICValues` update.  The `Bool` result records whether a native update
call was issued. -/
def ImeContext.set_spot (ctx : ImeContext) (x y : Int) : ImeContext × Bool :=
  if ctx.ic_spot.x = x ∧ ctx.ic_spot.y = y then (ctx, false)
  else ({ ctx with ic_spot := { x := x, y := y } }, true)

/-- `ImeInner` (inner.rs lines 10-20), minus the connection handle and the
zeroed native callback record: the current input-method handle, the
candidate list it was negotiated from, the per-window contexts
(tombstoned entries are `none`), the destroyed flag, and whether the
instantiate callback is currently registered. -/
structure ImeInner where
  im : Nat
  potential_input_methods : PotentialInputMethods
  contexts : List (Window × Option ImeContext)
  destroyed : Bool
  instantiate_registered : Bool
deriving DecidableEq, Repr

/-- Replace every context in place, as the `for (window, old_context) in
(*inner).contexts.iter_mut()` loop of `replace_im` (callbacks.rs lines
53-62) does: each keyed window gets a fresh native context initialized
with that window's previously recorded spot; a failed creation is the
`expect("Failed to reinitialize input context")` panic (`none`). -/
def rebuildContexts (createIc : CreateIcOracle) (im : Nat) :
    List (Window × Option ImeContext) →
    Option (List (Window × Option ImeContext))
  | [] => some []
  | (window, old_context) :: rest => do
      let spot := old_context.map ImeContext.ic_spot
      let new_context ← ImeContext.new createIc im window spot
      let rest1 ← rebuildContexts createIc im rest
      pure ((window, some new_context) :: rest1)

/-- `replace_im` (callbacks.rs lines 45-64): reopen an input method from
the retained candidate list (`expect("Failed to reopen input method")`
panics on `Failure`), re-create every keyed context in place with its
previously recorded spot, and clear the destroyed flag. -/
def replace_im (oracle : OpenImOracle) (createIc : CreateIcOracle)
    (inner : ImeInner) : Option ImeInner := do
  let (pim1, _names, result) :=
    inner.potential_input_methods.open_im oracle
  let im ← result.ok
  let contexts1 ← rebuildContexts createIc im.im inner.contexts
  pure { inner with
           im := im.im
           potential_input_methods := pim1
           contexts := contexts1
           destroyed := false }

/-- `xim_destroy_callback` (callbacks.rs lines 98-122): on a server
destroy-notify, set the destroyed flag, register the instantiate
callback, and immediately attempt to replace the input method with a
fallback via `replace_im`. -/
def xim_destroy_callback (oracle : OpenImOracle) (createIc : CreateIcOracle)
    (inner : ImeInner) : Option ImeInner :=
  replace_im oracle createIc
    { inner with destroyed := true, instantiate_registered := true }

/-- `xim_instantiate_callback` (callbacks.rs lines 70-93): on a server
instantiate-notify, unregister the instantiate callback and replace the
input method via `replace_im` (the subsequent `set_destroy_callback` call
touches only the native callback registration). -/
def xim_instantiate_callback (oracle : OpenImOracle) (createIc : CreateIcOracle)
    (inner : ImeInner) : Option ImeInner :=
  replace_im oracle createIc
    { inner with instantiate_registered := false }

namespace Ime

/-- `Ime::is_destroyed` (ime/mod.rs lines 106-108). -/
def is_destroyed (inner : ImeInner) : Bool := inner.destroyed

/-- Assoc-list lookup standing for `HashMap::get` on the contexts map. -/
def lookupContext (contexts : List (Window × Option ImeContext)) (window : Window) :
    Option (Option ImeContext) :=
  (contexts.find? (fun p => p.1 = window)).map Prod.snd

/-- `Ime::create_context` (ime/mod.rs lines 110-124): insert a tombstone
when the input method is destroyed, otherwise create a native context
(null handle is an error, `none` here). -/
def create_context (createIc : CreateIcOracle) (inner : ImeInner)
    (window : Window) : Option ImeInner :=
  if is_destroyed inner then
    some { inner with contexts := inner.contexts ++ [(window, none)] }
  else
    (ImeContext.new createIc inner.im window none).map fun ctx =>
      { inner with contexts := inner.contexts ++ [(window, some ctx)] }

/-- `Ime::get_context` (ime/mod.rs lines 141-150): `None` when the input
method is destroyed; otherwise the native handle of the window's context,
`None` for tombstoned or absent entries. -/
def get_context (inner : ImeInner) (window : Window) : Option Nat :=
  if is_destroyed inner then none
  else
    match lookupContext inner.contexts window with
    | some (some context) => some context.ic
    | _ => none

end Ime

/-! ## The XKB compose pipeline (claim C7)

`src/platform/linux/x11/xkb/compose.rs` and `state.rs`.  The
`xkb_compose_state` machine itself lives in libxkbcommon (an external
library); it is modelled as a table-driven state machine following its
documented semantics, while the wrapper logic (`XkbCompose`, `XkbState`)
is translated from the source. -/

/-- An XKB keysym. -/
abbrev Keysym := Nat

/-- An XKB keycode. -/
abbrev Keycode := Nat

/-- `xkb_compose_status`. -/
inductive ComposeStatus
  | Nothing
  | Composing
  | Composed
  | Cancelled
deriving DecidableEq, Repr

/-- A compose table: each entry is a keysym sequence together with the
UTF-8 string it commits and its representative keysym. -/
structure ComposeTable where
  sequences : List (List Keysym × String × Keysym)
deriving DecidableEq, Repr

/-- Whether `pre` is a proper prefix of `l`. -/
def isProperPrefixOf : List Keysym → List Keysym → Bool
  | [], [] => false
  | [], _ :: _ => true
  | _ :: _, [] => false
  | a :: as, b :: bs => a = b && isProperPrefixOf as bs

/-- The full sequence match of a candidate in the table, if any. -/
def ComposeTable.findSeq (tbl : ComposeTable) (cand : List Keysym) :
    Option (String × Keysym) :=
  (tbl.sequences.find? (fun e => e.1 = cand)).map Prod.snd

/-- Whether the candidate is a proper prefix of some table sequence. -/
def ComposeTable.hasProperExtension (tbl : ComposeTable) (cand : List Keysym) : Bool :=
  tbl.sequences.any (fun e => isProperPrefixOf cand e.1)

/-- The native `xkb_compose_state`: the compiled table, the pending
keysyms of the sequence in progress, the current status, and the
committed result while status is `Composed`. -/
structure ComposeState where
  table : ComposeTable
  pending : List Keysym
  status : ComposeStatus
  result : Option (String × Keysym)
deriving DecidableEq, Repr

/-- A fresh `xkb_compose_state_new` state: nothing pending, status
`Nothing`. -/
def ComposeState.fresh (tbl : ComposeTable) : ComposeState :=
  { table := tbl, pending := [], status := ComposeStatus.Nothing, result := none }

/-- Modelled from the spec (§3 `ComposeState` / §4.5): the external
libxkbcommon `xkb_compose_state_feed`: extend the pending sequence with
one keysym; a full table match commits a result with status `Composed`; a
proper prefix of some sequence is `Composing`; a mismatch is `Cancelled`
when a sequence was in progress and `Nothing` otherwise. -/
def ComposeState.feed (st : ComposeState) (keysym : Keysym) : ComposeState :=
  let cand := st.pending ++ [keysym]
  match st.table.findSeq cand with
  | some res =>
      { st with pending := [], status := ComposeStatus.Composed, result := some res }
  | none =>
      if st.table.hasProperExtension cand then
        { st with pending := cand, status := ComposeStatus.Composing, result := none }
      else if st.pending.isEmpty then
        { st with pending := [], status := ComposeStatus.Nothing, result := none }
      else
        { st with pending := [], status := ComposeStatus.Cancelled, result := none }

/-- The native `xkb_compose_state_reset`. -/
def ComposeState.resetState (st : ComposeState) : ComposeState :=
  { st with pending := [], status := ComposeStatus.Nothing, result := none }

/-- The native `xkb_compose_state_get_one_sym`: the representative keysym
of the composed result, `XKB_KEY_NoSymbol` (0) when there is none. -/
def ComposeState.get_one_sym (st : ComposeState) : Keysym :=
  match st.result with
  | some (_, rep) => rep
  | none => 0

/-- `XkbCompose` (compose.rs lines 25-30): the native state plus the
wrapper's cached `compose_status` field. -/
structure XkbCompose where
  state : ComposeState
  compose_status : ComposeStatus
deriving DecidableEq, Repr

/-- A freshly constructed `XkbCompose` (compose.rs lines 42-70): cached
status starts as `XKB_COMPOSE_NOTHING`. -/
def XkbCompose.fresh (tbl : ComposeTable) : XkbCompose :=
  { state := ComposeState.fresh tbl, compose_status := ComposeStatus.Nothing }

/-- `XkbCompose::feed_keysym` (compose.rs lines 72-80): feed the native
state and refresh the cached status (every non-modifier keysym is
`ACCEPTED` in this model). -/
def XkbCompose.feed_keysym (c : XkbCompose) (keysym : Keysym) : XkbCompose :=
  let st := c.state.feed keysym
  { state := st, compose_status := st.status }

/-- `XkbCompose::reset` (compose.rs lines 82-87): reset the native state
and cache `Nothing`. -/
def XkbCompose.reset (c : XkbCompose) : XkbCompose :=
  { state := c.state.resetState, compose_status := ComposeStatus.Nothing }

/-- `XkbCompose::get_keysym` (compose.rs lines 95-99). -/
def XkbCompose.get_keysym (c : XkbCompose) : Keysym :=
  c.state.get_one_sym

/-- `XkbCompose::get_utf8` (compose.rs lines 101-135): asserts that the
cached status is `Composed` (the assertion failure is the outer `none`);
an empty committed string returns `None` without resetting; otherwise the
string is returned and the engine is reset to `Nothing`. -/
def XkbCompose.get_utf8 (c : XkbCompose) : Option (XkbCompose × Option String) :=
  if c.compose_status = ComposeStatus.Composed then
    let out := match c.state.result with
      | some (s, _) => s
      | none => ""
    if out = "" then some (c, none)
    else some (c.reset, some out)
  else none

/-- `ElementState` (pressed/released), used by the XKB pipeline
(`src/events.rs` is not present under `src/`; modelled from the spec). -/
inductive ElementState
  | Pressed
  | Released
deriving DecidableEq, Repr

/-- `XkbState` (state.rs lines 46-50): the per-device keymap and state are
abstracted to lookup functions (`xkb_state_key_get_one_sym` and
`xkb_state_key_get_utf8`, with `none` for a zero-sized UTF-8 result), plus
the optional compose engine. -/
structure XkbState where
  sym_of : Keycode → Keysym
  utf8_of : Keycode → Option String
  compose : Option XkbCompose

/-- `XkbState::compose_status_check` (state.rs lines 111-117). -/
def XkbState.compose_status_check (st : XkbState) (status : ComposeStatus) : Bool :=
  match st.compose with
  | some c => c.compose_status = status
  | none => false

/-- `XkbState::is_composing` (state.rs lines 119-121). -/
def XkbState.is_composing (st : XkbState) : Bool :=
  st.compose_status_check ComposeStatus.Composing

/-- `XkbState::is_composed` (state.rs lines 123-125). -/
def XkbState.is_composed (st : XkbState) : Bool :=
  st.compose_status_check ComposeStatus.Composed

/-- `XkbState::feed_compose` (state.rs lines 127-131): feed the compose
engine when one exists. -/
def XkbState.feed_compose (st : XkbState) (keysym : Keysym) : XkbState :=
  match st.compose with
  | some c => { st with compose := some (c.feed_keysym keysym) }
  | none => st

/-- `XkbState::get_keysym` (state.rs lines 137-156): look up the direct
keysym; unless composition is bypassed, feed it to the compose engine on
key-press only, and report the composed representative keysym when the
engine has just composed. -/
def XkbState.get_keysym (st : XkbState) (keycode : Keycode)
    (element_state : ElementState) (bypass_compose : Bool) :
    XkbState × Keysym :=
  let keysym := st.sym_of keycode
  if bypass_compose = false then
    let st1 :=
      if element_state = ElementState.Pressed then st.feed_compose keysym else st
    if st1.is_composed then
      match st1.compose with
      | some c => (st1, c.get_keysym)
      | none => (st1, keysym)
    else (st1, keysym)
  else (st, keysym)

/-- `XkbState::get_utf8` (state.rs lines 209-225): only key-presses
produce text; a just-composed engine commits its string (and resets); a
composing engine suppresses text; otherwise the direct lookup is used.
The `none` outcome is the `assert!` inside `XkbCompose::get_utf8` (never
hit from this caller, which checks `is_composed` first). -/
def XkbState.get_utf8 (st : XkbState) (keycode : Keycode)
    (element_state : ElementState) : Option (XkbState × Option String) :=
  if element_state = ElementState.Pressed then
    if st.is_composed then
      match st.compose with
      | some c =>
          (c.get_utf8).map fun (c1, out) => ({ st with compose := some c1 }, out)
      | none => some (st, none)
    else if st.is_composing then some (st, none)
    else some (st, st.utf8_of keycode)
  else some (st, none)

/-- One keyboard event through the XKB pipeline in the order
`Xkb::get_data_internal` uses (xkb/mod.rs lines 136-163, `raw = false`):
`get_keysym` (which feeds the compose engine on press) followed by
`get_utf8` (which consumes a composed result). -/
def XkbState.step (st : XkbState) (keycode : Keycode)
    (element_state : ElementState) :
    Option (XkbState × Keysym × Option String) := do
  let (st1, keysym) := st.get_keysym keycode element_state false
  let (st2, utf8) ← st1.get_utf8 keycode element_state
  pure (st2, keysym, utf8)

/-! ## The frame-extents heuristic (claims C8 and C10)

`src/platform/linux/x11/util/geometry.rs`. -/

/-- Wrapping of a mathematical integer into the `i32` range (Rust
release-mode two's-complement semantics for casts and overflow). -/
def wrap32 (z : Int) : Int := (z + 2 ^ 31) % 2 ^ 32 - 2 ^ 31

/-- `i32::saturating_sub` applied to in-range operands: the exact
difference clamped into the `i32` range. -/
def sat32 (z : Int) : Int := max (min z (2 ^ 31 - 1)) (-(2 ^ 31))

/-- The `as c_uint` cast of an `i32` value: two's-complement
reinterpretation as an unsigned 32-bit number. -/
def i32_as_u32 (z : Int) : Nat := (z % (2 ^ 32 : Int)).toNat

/-- The `as i32` cast of a `c_ulong` value. -/
def u64_as_i32 (n : Nat) : Int := wrap32 (n : Int)

/-- `FrameExtents` (geometry.rs lines 78-84): four `c_ulong` margins. -/
structure FrameExtents where
  left : Nat
  right : Nat
  top : Nat
  bottom : Nat
deriving DecidableEq, Repr

/-- `FrameExtents::new` (geometry.rs lines 87-89). -/
def FrameExtents.new (left right top bottom : Nat) : FrameExtents :=
  { left := left, right := right, top := top, bottom := bottom }

/-- `FrameExtents::from_border` (geometry.rs lines 91-93). -/
def FrameExtents.from_border (border : Nat) : FrameExtents :=
  FrameExtents.new border border border border

/-- `FrameExtentsHeuristicPath` (geometry.rs lines 199-204). -/
inductive FrameExtentsHeuristicPath
  | Supported
  | UnsupportedNested
  | UnsupportedBordered
deriving DecidableEq, Repr

/-- `FrameExtentsHeuristic` (geometry.rs lines 206-210). -/
structure FrameExtentsHeuristic where
  frame_extents : FrameExtents
  heuristic_path : FrameExtentsHeuristicPath
deriving DecidableEq, Repr

/-- `FrameExtentsHeuristic::inner_pos_to_outer` (geometry.rs lines
212-220): on every path except `UnsupportedBordered`, subtract the stored
left/top extents (cast to `i32`) from the inner position; on
`UnsupportedBordered`, return the position unchanged. -/
def FrameExtentsHeuristic.inner_pos_to_outer (f : FrameExtentsHeuristic)
    (x y : Int) : Int × Int :=
  if f.heuristic_path ≠ FrameExtentsHeuristicPath.UnsupportedBordered then
    (wrap32 (x - u64_as_i32 f.frame_extents.left),
     wrap32 (y - u64_as_i32 f.frame_extents.top))
  else (x, y)

/-- The window manager's replies to the X queries issued by
`get_frame_extents_heuristic`: the `XTranslateCoordinates` result for the
window against the root, the window's own geometry, the
`_NET_FRAME_EXTENTS` property (absent when unsupported or malformed),
the `_NET_CLIENT_LIST` membership of the returned child, and the geometry
of the outermost ancestor found by `climb_hierarchy`. -/
structure XQueryEnv where
  inner_y_rel_root : Int
  child : Window
  inner_width : Nat
  inner_height : Nat
  border : Nat
  frame_extents_prop : Option FrameExtents
  child_is_top_level : Option Bool
  outer_y : Int
  outer_width : Nat
  outer_height : Nat
deriving DecidableEq, Repr

/-- The `nested` test of `get_frame_extents_heuristic` (geometry.rs line
269): `!(window == child || is_top_level(child) == Some(true))`. -/
def isNested (env : XQueryEnv) (window : Window) : Bool :=
  !(window = env.child || env.child_is_top_level = some true)

/-- `get_frame_extents_heuristic` (geometry.rs lines 234-350): prefer the
`_NET_FRAME_EXTENTS` property (path `Supported`, zeroing the extents for
an un-nested window); otherwise, for a nested window, diff the outer and
inner geometry (path `UnsupportedNested`) with `left = right = width
difference / 2`, `top = the inner-to-outer y offset`, `bottom = height
difference - that offset` (all `c_uint` subtractions saturating); and for
an un-nested window use the reported border on all four sides (path
`UnsupportedBordered`). -/
def get_frame_extents_heuristic (env : XQueryEnv) (window : Window) :
    FrameExtentsHeuristic :=
  let nested := isNested env window
  match env.frame_extents_prop with
  | some fe =>
      let fe1 := if nested = false then FrameExtents.new 0 0 0 0 else fe
      { frame_extents := fe1
        heuristic_path := FrameExtentsHeuristicPath.Supported }
  | none =>
      if nested then
        let diff_x := env.outer_width - env.inner_width
        let diff_y := env.outer_height - env.inner_height
        let offset_y := i32_as_u32 (sat32 (env.inner_y_rel_root - env.outer_y))
        let left := diff_x / 2
        { frame_extents := FrameExtents.new left left offset_y (diff_y - offset_y)
          heuristic_path := FrameExtentsHeuristicPath.UnsupportedNested }
      else
        { frame_extents := FrameExtents.from_border env.border
          heuristic_path := FrameExtentsHeuristicPath.UnsupportedBordered }

/-- A concrete window manager environment that supports
`_NET_FRAME_EXTENTS` (left/right 10, top 5, bottom 5) for a nested
window, used to test the `Supported` path at window id 1. -/
def supportedEnv : XQueryEnv :=
  { inner_y_rel_root := 5
    child := 2
    inner_width := 100
    inner_height := 100
    border := 0
    frame_extents_prop := some (FrameExtents.new 10 10 5 5)
    child_is_top_level := some false
    outer_y := 0
    outer_width := 120
    outer_height := 110 }

/-! ## Keycode conversion and event-drop guards (claim C9)

`src/platform/linux/x11/xkb/mod.rs` lines 19-29 and
`src/platform_impl/macos/event_loop.rs` lines 321-335. -/

/-- `scancode_from_keycode` (xkb/mod.rs lines 19-23): `scancode = keycode
- 8`, with `assert!(scancode >= 0)` — the assertion failure (for an X11
keycode below 8) is a panic, modelled as `none`. -/
def scancode_from_keycode (keycode : Int) : Option Nat :=
  let scancode := keycode - 8
  if scancode ≥ 0 then some scancode.toNat else none

/-- `xkb_keycode_from_x11_keycode` (xkb/mod.rs lines 25-29):
`assert!(keycode >= 8 && keycode <= 255)` — the assertion failure (for an
X11 keycode outside `8..=255`) is a panic, modelled as `none`. -/
def xkb_keycode_from_x11_keycode (keycode : Int) : Option Nat :=
  if keycode ≥ 8 ∧ keycode ≤ 255 then some keycode.toNat else none

/-- The early-return guards of `EventLoop::translate_event`
(macos/event_loop.rs lines 321-335): a nil `NSEvent`, and the
undocumented `NSEventType` value 21 produced when Spotlight opens, are
dropped (return `None`) before the event type is matched — without
panicking. -/
def translate_event_guard_drops (is_nil : Bool) (event_type : Nat) : Bool :=
  is_nil || event_type = 21

/-! ## Helper lemmas: the `AppState` loop -/

theorem handle_nonuser_event_fields (cb : Callback) (h : Handler) (ev : Event) :
    (AppState.handle_nonuser_event cb h ev).1.ready = h.ready ∧
    (AppState.handle_nonuser_event cb h ev).1.start_time = h.start_time ∧
    (AppState.handle_nonuser_event cb h ev).1.control_flow_prev = h.control_flow_prev ∧
    (AppState.handle_nonuser_event cb h ev).1.pending_events = h.pending_events ∧
    (AppState.handle_nonuser_event cb h ev).2 = [ev] := by
  simp [AppState.handle_nonuser_event]

theorem dispatch_events_cons (cb : Callback) (h : Handler) (ws : Bool)
    (e : Event) (rest : List Event) :
    AppState.dispatch_events cb h ws (e :: rest) =
      ((AppState.dispatch_events cb { h with control_flow := cb e h.control_flow }
          (ws || decide ((cb e h.control_flow) = ControlFlow.Exit)) rest).1,
       e :: (AppState.dispatch_events cb { h with control_flow := cb e h.control_flow }
          (ws || decide ((cb e h.control_flow) = ControlFlow.Exit)) rest).2.1,
       (AppState.dispatch_events cb { h with control_flow := cb e h.control_flow }
          (ws || decide ((cb e h.control_flow) = ControlFlow.Exit)) rest).2.2) := rfl

theorem dispatch_events_spec (cb : Callback) :
    ∀ (evs : List Event) (h : Handler) (ws : Bool),
    (AppState.dispatch_events cb h ws evs).2.1 = evs ∧
    (AppState.dispatch_events cb h ws evs).1.ready = h.ready ∧
    (AppState.dispatch_events cb h ws evs).1.start_time = h.start_time ∧
    (AppState.dispatch_events cb h ws evs).1.control_flow_prev = h.control_flow_prev ∧
    (AppState.dispatch_events cb h ws evs).1.pending_events = h.pending_events := by
  intro evs
  induction evs with
  | nil => intro h ws; simp [AppState.dispatch_events]
  | cons e rest ih =>
      intro h ws
      obtain ⟨i1, i2, i3, i4, i5⟩ := ih { h with control_flow := cb e h.control_flow }
        (ws || decide ((cb e h.control_flow) = ControlFlow.Exit))
      rw [dispatch_events_cons]
      simp only at i2 i3 i4 i5
      exact ⟨by rw [i1], i2, i3, i4, i5⟩

theorem cleared_spec (cb : Callback) (now : Instant) (h : Handler)
    (hr : h.ready = true) (hp : h.control_flow_prev ≠ ControlFlow.Exit) :
    ∃ h1 st, AppState.cleared cb now h
        = some (h1, h.pending_events ++ [Event.EventsCleared], st) ∧
      h1.ready = true ∧ h1.pending_events = [] ∧
      (st = false → h1.start_time = some now ∧ h1.control_flow ≠ ControlFlow.Exit) := by
  classical
  have hq : ¬(h.ready = false) := by simp [hr]
  rcases hdd : AppState.dispatch_events cb { h with pending_events := ([] : List Event) }
      (decide (h.control_flow = ControlFlow.Exit)) h.pending_events with ⟨h1, tr1, ws1⟩
  have hspec := dispatch_events_spec cb h.pending_events
      { h with pending_events := ([] : List Event) }
      (decide (h.control_flow = ControlFlow.Exit))
  rw [hdd] at hspec
  obtain ⟨htr, hready, hstart, hprev, hpend⟩ := hspec
  simp only at htr hready hstart hprev hpend
  by_cases hws :
      (ws1 || decide ((cb Event.EventsCleared h1.control_flow) = ControlFlow.Exit)) = true
  · refine ⟨{ h1 with control_flow := cb Event.EventsCleared h1.control_flow }, true,
      ?_, by simpa using hready.trans hr, by simpa using hpend, by simp⟩
    simp only [AppState.cleared, if_neg hq, hdd, AppState.handle_nonuser_event, hws,
      if_true, htr]
  · have hws1 : ws1 = false := by
      cases ws1
      · rfl
      · simp at hws
    have hcf : ¬((cb Event.EventsCleared h1.control_flow) = ControlFlow.Exit) := by
      intro hx
      rw [hws1] at hws
      simp [hx] at hws
    have hprev1 : ¬(h1.control_flow_prev = ControlFlow.Exit ∨
        (cb Event.EventsCleared h1.control_flow) = ControlFlow.Exit) := by
      rintro (hx | hx)
      · rw [hprev] at hx; exact hp hx
      · exact hcf hx
    refine ⟨{ h1 with control_flow := cb Event.EventsCleared h1.control_flow,
                      start_time := some now }, false,
      ?_, by simpa using hready.trans hr, by simpa using hpend,
      fun _ => ⟨by simp, by simpa using hcf⟩⟩
    have hws' :
        (ws1 || decide ((cb Event.EventsCleared h1.control_flow) = ControlFlow.Exit)) = false := by
      simp [hws1, hcf]
    simp only [AppState.cleared, if_neg hq, hdd, AppState.handle_nonuser_event, hws',
      Bool.false_eq_true, if_false, htr]
    simp [hprev1]

theorem wakeup_spec (cb : Callback) (now s : Instant) (h : Handler)
    (hr : h.ready = true) (hs : h.start_time = some s) :
    AppState.wakeup cb now h = some
      ({ h with
           control_flow_prev := h.control_flow,
           control_flow :=
             cb (Event.NewEvents (AppState.wakeup_cause h.control_flow s now))
               h.control_flow },
       [Event.NewEvents (AppState.wakeup_cause h.control_flow s now)]) := by
  simp [AppState.wakeup, hr, hs, AppState.handle_nonuser_event]

theorem foldl_queue_event (evs : List Event) :
    ∀ h : Handler, evs.foldl AppState.queue_event h
      = { h with pending_events := h.pending_events ++ evs } := by
  induction evs with
  | nil => intro h; simp
  | cons e rest ih =>
      intro h
      simp [List.foldl_cons, AppState.queue_event, ih]

theorem iterate_spec (cb : Callback) (evs : List Event) (now : Instant)
    (h : Handler) (hl : h.live) :
    ∃ h1 c st, iterate cb evs now h
        = some (h1, Event.NewEvents c :: (evs ++ [Event.EventsCleared]), st) ∧
      (∃ s, h.start_time = some s ∧ c = AppState.wakeup_cause h.control_flow s now) ∧
      (st = false → h1.live) := by
  obtain ⟨hr, ⟨s, hs⟩, hcf, hpe⟩ := hl
  have hw := wakeup_spec cb now s h hr hs
  set hw1 : Handler :=
    { h with
        control_flow_prev := h.control_flow,
        control_flow :=
          cb (Event.NewEvents (AppState.wakeup_cause h.control_flow s now))
            h.control_flow } with hhw1
  have hq := foldl_queue_event evs hw1
  have hcl := cleared_spec cb now { hw1 with pending_events := hw1.pending_events ++ evs }
    (by simp [hhw1, hr]) (by simp [hhw1]; exact hcf)
  obtain ⟨h1, st, hcl_eq, h1r, h1p, h1st⟩ := hcl
  refine ⟨h1, AppState.wakeup_cause h.control_flow s now, st, ?_, ⟨s, hs, rfl⟩, ?_⟩
  · simp only [iterate, hw, Option.bind_eq_bind, Option.some_bind, hq, hcl_eq]
    simp [hhw1, hpe]
  · intro hst
    obtain ⟨h1s, h1cf⟩ := h1st hst
    exact ⟨h1r, ⟨now, h1s⟩, h1cf, h1p⟩

theorem iterate_trace_count (c : StartCause) (evs : List Event)
    (hnoe : Event.LoopDestroyed ∉ evs) :
    (Event.NewEvents c :: (evs ++ [Event.EventsCleared])).count
      Event.LoopDestroyed = 0 := by
  rw [List.count_eq_zero]
  simp [hnoe]

theorem runFrom_spec (cb : Callback) :
    ∀ (iters : List (List Event × Instant)) (h : Handler), h.live →
    (∀ p ∈ iters, Event.LoopDestroyed ∉ p.1) →
    ∃ tr st, runFrom cb h iters = some (tr, st) ∧
      tr.count Event.LoopDestroyed = (if st then 1 else 0) ∧
      (st = true → tr.getLast? = some Event.LoopDestroyed) := by
  intro iters
  induction iters with
  | nil => intro h _ _; exact ⟨[], false, rfl, by simp, by simp⟩
  | cons p rest ih =>
      intro h hl hno
      obtain ⟨evs, now⟩ := p
      obtain ⟨h1, c, st, hit, _, hlive1⟩ := iterate_spec cb evs now h hl
      have hnoe : Event.LoopDestroyed ∉ evs := by
        have := hno (evs, now) (by simp)
        simpa using this
      have hcount0 := iterate_trace_count c evs hnoe
      have hce : evs.count Event.LoopDestroyed = 0 := List.count_eq_zero.mpr hnoe
      cases st with
      | true =>
          refine ⟨(Event.NewEvents c :: (evs ++ [Event.EventsCleared]))
              ++ [Event.LoopDestroyed], true, ?_, ?_, ?_⟩
          · simp only [runFrom, hit, Option.bind_eq_bind, Option.some_bind]
            simp [AppState.exit, AppState.handle_nonuser_event]
          · simp [List.count_append, hce]
          · intro _
            exact List.getLast?_concat _
      | false =>
          obtain ⟨trR, stR, hR, hRc, hRl⟩ :=
            ih h1 (hlive1 rfl) (fun q hq => hno q (by simp [hq]))
          refine ⟨(Event.NewEvents c :: (evs ++ [Event.EventsCleared])) ++ trR,
              stR, ?_, ?_, ?_⟩
          · simp only [runFrom, hit, Option.bind_eq_bind, Option.some_bind]
            simp [hR]
          · simp [List.count_append, hce, hRc]
          · intro hst
            have h2 := hRl hst
            rw [List.getLast?_append, h2]
            rfl

/-! ## Claim C1 -/

/-- Claim C1: for every user callback and every (finite) schedule of
run-loop turns whose natively-queued events never include
`LoopDestroyed`, the loop never panics, and once it observes
`ControlFlow::Exit` (result flag `true`) the whole callback-invocation
trace contains exactly one `LoopDestroyed`, which is its very last
element — no callback invocation follows it; when `Exit` is never
observed, no `LoopDestroyed` is ever emitted. -/
theorem exit_emits_one_loop_destroyed (cb : Callback) (launchEvents : List Event)
    (t0 : Instant) (iters : List (List Event × Instant))
    (hle : Event.LoopDestroyed ∉ launchEvents)
    (hno : ∀ p ∈ iters, Event.LoopDestroyed ∉ p.1) :
    ∃ tr exited, runLoop cb launchEvents t0 iters = some (tr, exited) ∧
      tr.count Event.LoopDestroyed = (if exited then 1 else 0) ∧
      (exited = true → tr.getLast? = some Event.LoopDestroyed) := by
  have hlaunch :
      AppState.launched cb Handler.default =
        ({ ready := true
           control_flow := cb (Event.NewEvents StartCause.Init) ControlFlow.Poll
           control_flow_prev := ControlFlow.Poll
           start_time := none
           pending_events := [] }, [Event.NewEvents StartCause.Init]) := rfl
  have hq : List.foldl AppState.queue_event
      { ready := true
        control_flow := cb (Event.NewEvents StartCause.Init) ControlFlow.Poll
        control_flow_prev := ControlFlow.Poll
        start_time := none
        pending_events := [] } launchEvents =
      { ready := true
        control_flow := cb (Event.NewEvents StartCause.Init) ControlFlow.Poll
        control_flow_prev := ControlFlow.Poll
        start_time := none
        pending_events := ([] : List Event) ++ launchEvents } := by
    rw [foldl_queue_event]
  obtain ⟨h3, st, hcl, h3r, h3p, h3st⟩ := cleared_spec cb t0
    { ready := true
      control_flow := cb (Event.NewEvents StartCause.Init) ControlFlow.Poll
      control_flow_prev := ControlFlow.Poll
      start_time := none
      pending_events := ([] : List Event) ++ launchEvents }
    rfl (by simp)
  have hle0 : launchEvents.count Event.LoopDestroyed = 0 :=
    List.count_eq_zero.mpr hle
  cases st with
  | true =>
      refine ⟨[Event.NewEvents StartCause.Init]
          ++ ((([] : List Event) ++ launchEvents) ++ [Event.EventsCleared])
          ++ [Event.LoopDestroyed], true, ?_, ?_, ?_⟩
      · simp only [runLoop, hlaunch, hq, Option.bind_eq_bind]
        simp only [hcl, Option.some_bind]
        simp [AppState.exit, AppState.handle_nonuser_event]
      · simp [List.count_append, hle0]
      · intro _
        exact List.getLast?_concat _
  | false =>
      obtain ⟨h3s, h3cf⟩ := h3st rfl
      obtain ⟨trR, stR, hR, hRc, hRl⟩ := runFrom_spec cb iters h3
        ⟨h3r, ⟨t0, h3s⟩, h3cf, h3p⟩ hno
      refine ⟨[Event.NewEvents StartCause.Init]
          ++ ((([] : List Event) ++ launchEvents) ++ [Event.EventsCleared])
          ++ trR, stR, ?_, ?_, ?_⟩
      · simp only [runLoop, hlaunch, hq, Option.bind_eq_bind]
        simp only [hcl, Option.some_bind]
        simp [hR]
      · simp [List.count_append, hle0, hRc]
      · intro hst
        have h2 := hRl hst
        rw [List.getLast?_append, h2]
        rfl

/-- Witness for C1: a callback that sets `Exit` while handling
`EventsCleared` drives a two-turn schedule to termination with a trace
ending in exactly one `LoopDestroyed`. -/
theorem exit_emits_one_loop_destroyed_witness :
    ∃ tr exited,
      runLoop (fun ev cf =>
          match ev with
          | Event.EventsCleared => ControlFlow.Exit
          | _ => cf) [] 0 [([], 1), ([], 2)] = some (tr, exited) ∧
      tr.count Event.LoopDestroyed = (if exited then 1 else 0) ∧
      (exited = true → tr.getLast? = some Event.LoopDestroyed) :=
  exit_emits_one_loop_destroyed _ [] 0 [([], 1), ([], 2)]
    (by simp) (by intro p hp; simp at hp; rcases hp with h | h <;> simp [h])

/-! ## Claim C2 -/

/-- Claim C2: the first iteration opens with `NewEvents(Init)`
(`AppState::launched`), and every later run-loop turn opens with
`NewEvents(cause)` where `cause` is chosen from the previous
`ControlFlow` value and the elapsed time exactly as the claim states it
(`newEventsCauseSpec`): `Poll` for `Poll`; `WaitCancelled {start, None}`
for `Wait`; for `WaitUntil t`, `ResumeTimeReached` when `now ≥ t` and
`WaitCancelled {start, Some t}` otherwise. -/
theorem new_events_cause_selection (cb : Callback) (h : Handler)
    (now s : Instant) (evs : List Event) (c : StartCause)
    (hr : h.ready = true) (hs : h.start_time = some s)
    (hc : newEventsCauseSpec h.control_flow s now = some c) :
    (AppState.launched cb Handler.default).2
      = [Event.NewEvents StartCause.Init] ∧
    AppState.wakeup_cause h.control_flow s now = c ∧
    ∃ h1 tr st, iterate cb evs now h = some (h1, tr, st) ∧
      tr.head? = some (Event.NewEvents c) := by
  have hcf : h.control_flow ≠ ControlFlow.Exit := by
    intro hx
    rw [hx] at hc
    simp [newEventsCauseSpec] at hc
  have hcause : AppState.wakeup_cause h.control_flow s now = c := by
    cases hcf' : h.control_flow with
    | Poll => rw [hcf'] at hc; simp [newEventsCauseSpec] at hc
              simp [AppState.wakeup_cause, hc]
    | Wait => rw [hcf'] at hc; simp [newEventsCauseSpec] at hc
              simp [AppState.wakeup_cause, hc]
    | WaitUntil t => rw [hcf'] at hc; simp [newEventsCauseSpec] at hc
                     simp [AppState.wakeup_cause, hc]
    | Exit => exact absurd hcf' hcf
  refine ⟨rfl, hcause, ?_⟩
  have hw := wakeup_spec cb now s h hr hs
  set hw1 : Handler :=
    { h with
        control_flow_prev := h.control_flow,
        control_flow :=
          cb (Event.NewEvents (AppState.wakeup_cause h.control_flow s now))
            h.control_flow } with hhw1
  have hq := foldl_queue_event evs hw1
  obtain ⟨h1, st, hcl_eq, _, _, _⟩ :=
    cleared_spec cb now { hw1 with pending_events := hw1.pending_events ++ evs }
      (by simp [hhw1, hr]) (by simp [hhw1]; exact hcf)
  refine ⟨h1, [Event.NewEvents (AppState.wakeup_cause h.control_flow s now)]
      ++ ((hw1.pending_events ++ evs) ++ [Event.EventsCleared]), st, ?_, ?_⟩
  · simp only [iterate, hw, Option.bind_eq_bind, Option.some_bind, hq, hcl_eq]
    simp
  · simp [hcause]

/-- Witness for C2: a handler waiting until tick 5, woken at tick 7,
opens its iteration with `NewEvents (ResumeTimeReached 3 5)`. -/
theorem new_events_cause_selection_witness :
    ∃ h1 tr st,
      iterate (fun _ cf => cf) [] 7
        { ready := true
          control_flow := ControlFlow.WaitUntil 5
          control_flow_prev := ControlFlow.Poll
          start_time := some 3
          pending_events := [] } = some (h1, tr, st) ∧
      tr.head? = some (Event.NewEvents (StartCause.ResumeTimeReached 3 5)) :=
  (new_events_cause_selection (fun _ cf => cf)
    { ready := true
      control_flow := ControlFlow.WaitUntil 5
      control_flow_prev := ControlFlow.Poll
      start_time := some 3
      pending_events := [] } 7 3 [] (StartCause.ResumeTimeReached 3 5)
    rfl rfl (by simp [newEventsCauseSpec])).2.2

/-! ## Claim C3 -/

/-- Counterexample to claim C3: the claim says that if the callback makes
no assignment during an iteration, the value read after `EventsCleared`
of that iteration is `Poll` regardless of earlier assignments.  With the
callback `assignWaitAtInit` — which assigns `Wait` only while handling
`NewEvents(Init)` in the first iteration and never assigns again — the
control-flow value read after the second iteration's `EventsCleared` is
still `Wait`, not `Poll`: the `Handler` keeps `control_flow` across
iterations and never resets it to its default. -/
theorem control_flow_not_reset_counterexample :
    ((AppState.cleared assignWaitAtInit 0
        (AppState.launched assignWaitAtInit Handler.default).1).bind fun r =>
      (iterate assignWaitAtInit [] 1 r.1).map fun r2 => r2.1.control_flow)
      = some ControlFlow.Wait ∧ ControlFlow.Wait ≠ ControlFlow.Poll := by
  constructor
  · rfl
  · decide

/-- Claim C3 as amended: the `ControlFlow` value starts as `Poll` (the
`Default`, installed when the `Handler` is created) but is *not* reset at
each iteration: with a callback that makes no assignment, an iteration
leaves the control-flow value exactly as the previous iteration set it
(`Exit` stops the loop as in C1). -/
theorem control_flow_persists (cb : Callback) (hid : ∀ e c, cb e c = c)
    (h : Handler) (evs : List Event) (now : Instant) :
    Handler.default.control_flow = ControlFlow.Poll ∧
    (∀ h1 tr st, iterate cb evs now h = some (h1, tr, st) →
      h1.control_flow = h.control_flow) := by
  have hdisp : ∀ (l : List Event) (h0 : Handler) (ws : Bool),
      (AppState.dispatch_events cb h0 ws l).1.control_flow = h0.control_flow := by
    intro l
    induction l with
    | nil => intro h0 ws; simp [AppState.dispatch_events]
    | cons e rest ih =>
        intro h0 ws
        rw [dispatch_events_cons]
        simp only
        rw [ih]
        simp [hid]
  have hcl : ∀ (h0 : Handler) r, AppState.cleared cb now h0 = some r →
      r.1.control_flow = h0.control_flow := by
    intro h0 r hr
    by_cases hready : h0.ready = false
    · simp [AppState.cleared, hready] at hr
      rw [← hr]
    · rcases hdd : AppState.dispatch_events cb
          { h0 with pending_events := ([] : List Event) }
          (decide (h0.control_flow = ControlFlow.Exit)) h0.pending_events
        with ⟨hh1, tr1, ws1⟩
      have hd1 : hh1.control_flow = h0.control_flow := by
        have := hdisp h0.pending_events
          { h0 with pending_events := ([] : List Event) }
          (decide (h0.control_flow = ControlFlow.Exit))
        rw [hdd] at this
        simpa using this
      simp only [AppState.cleared, if_neg hready, hdd,
        AppState.handle_nonuser_event] at hr
      by_cases hws : (ws1 || decide ((cb Event.EventsCleared hh1.control_flow)
          = ControlFlow.Exit)) = true
      · rw [if_pos hws] at hr
        rw [← Option.some_inj.mp hr]
        simp [hid, hd1]
      · rw [if_neg hws] at hr
        by_cases hexit : (hh1.control_flow_prev = ControlFlow.Exit ∨
            (cb Event.EventsCleared hh1.control_flow) = ControlFlow.Exit)
        · rw [if_pos hexit] at hr
          exact absurd hr (by simp)
        · rw [if_neg hexit] at hr
          rw [← Option.some_inj.mp hr]
          simp [hid, hd1]
  refine ⟨rfl, ?_⟩
  intro h1 tr st hit
  by_cases hready : h.ready = false
  · have hw : AppState.wakeup cb now h = some (h, []) := by
      simp [AppState.wakeup, hready]
    rw [iterate, hw] at hit
    simp only [Option.bind_eq_bind, Option.some_bind] at hit
    rcases hcc : AppState.cleared cb now (List.foldl AppState.queue_event h evs)
      with _ | r
    · rw [hcc] at hit; exact absurd hit (by simp)
    · rw [hcc] at hit
      simp only [Option.some_bind] at hit
      have := hcl _ r hcc
      have hq := foldl_queue_event evs h
      rw [hq] at this
      simp only at this
      have h1r : r.1 = h1 := by
        rcases r with ⟨ra, rb, rc⟩
        simp at hit
        exact hit.1
      rw [← h1r, this]
  · rcases hst : h.start_time with _ | s
    · have hw : AppState.wakeup cb now h = none := by
        simp [AppState.wakeup, hready, hst]
      rw [iterate, hw] at hit
      exact absurd hit (by simp)
    · have hready' : h.ready = true := by
        cases hhh : h.ready
        · exact absurd hhh hready
        · rfl
      have hw := wakeup_spec cb now s h hready' hst
      rw [iterate, hw] at hit
      simp only [Option.bind_eq_bind, Option.some_bind] at hit
      rw [hid] at hit
      rcases hcc : AppState.cleared cb now (List.foldl AppState.queue_event
          { h with control_flow_prev := h.control_flow } evs)
        with _ | r
      · rw [hcc] at hit; exact absurd hit (by simp)
      · rw [hcc] at hit
        simp only [Option.some_bind] at hit
        have := hcl _ r hcc
        have hq := foldl_queue_event evs { h with control_flow_prev := h.control_flow }
        rw [hq] at this
        simp only at this
        have h1r : r.1 = h1 := by
          rcases r with ⟨ra, rb, rc⟩
          simp at hit
          exact hit.1
        rw [← h1r, this]

/-- Witness for C3 (amended): a handler left at `Wait` by an earlier
iteration still reads `Wait` after an iteration in which the callback
makes no assignment. -/
theorem control_flow_persists_witness :
    ((iterate (fun _ cf => cf) [] 4
        { ready := true
          control_flow := ControlFlow.Wait
          control_flow_prev := ControlFlow.Wait
          start_time := some 2
          pending_events := [] }).map fun r => r.1.control_flow)
      = some ControlFlow.Wait := by
  have h := (control_flow_persists (fun _ cf => cf) (fun _ _ => rfl)
    { ready := true
      control_flow := ControlFlow.Wait
      control_flow_prev := ControlFlow.Wait
      start_time := some 2
      pending_events := [] } [] 4).2
  rcases hit : iterate (fun _ cf => cf) [] 4
      { ready := true
        control_flow := ControlFlow.Wait
        control_flow_prev := ControlFlow.Wait
        start_time := some 2
        pending_events := [] } with _ | r
  · exact absurd hit (by decide)
  · have h2 := h r.1 r.2.1 r.2.2 (by rw [hit])
    show some (r.1.control_flow) = some ControlFlow.Wait
    rw [h2]

/-! ## Claim C4 -/

/-- Claim C4 names a bug in the code: `Proxy::send_event` never enqueues a
`UserEvent` and never returns `Ok` or `Err(Closed)` — its body begins with
`unimplemented!()`, so every call, with any payload and whatever the state
of the owning loop, panics immediately.  This contradicts the documented
contract of `EventLoopProxy::send_event` in `src/event_loop.rs` (returns
`Err` only when the loop no longer exists). -/
theorem send_event_always_panics :
    Proxy.send_event Unit () = CallOutcome.panicked ("not implemented") ∧
    (∀ (T : Type) (e : T),
      Proxy.send_event T e = CallOutcome.panicked ("not implemented")) ∧
    (∀ (T : Type) (e : T) (r : Except EventLoopClosed Unit),
      Proxy.send_event T e ≠ CallOutcome.returns r) :=
  ⟨rfl, fun _ _ => rfl, fun _ _ _ h => CallOutcome.noConfusion h⟩

/-- Witness for C4: the panic observed at the concrete call
`send_event(())`. -/
theorem send_event_always_panics_witness :
    Proxy.send_event Unit () = CallOutcome.panicked ("not implemented") :=
  (send_event_always_panics).2.1 Unit ()

/-! ## Claim C5: helper lemmas -/

theorem tryEach_names (oracle : OpenImOracle) :
    ∀ l : List PotentialInputMethod,
      (tryEach oracle l).2.1
        = negotiationOrderSpec oracle (l.map PotentialInputMethod.name) := by
  intro l
  induction l with
  | nil => rfl
  | cons p rest ih =>
      rcases ho : oracle p.name with _ | im
      · simp [tryEach, PotentialInputMethod.open_im, ho, negotiationOrderSpec, ih]
      · simp [tryEach, PotentialInputMethod.open_im, ho, negotiationOrderSpec]

theorem tryEach_failure_all (oracle : OpenImOracle) :
    ∀ l : List PotentialInputMethod,
      (tryEach oracle l).2.2 = none →
      (tryEach oracle l).2.1 = l.map PotentialInputMethod.name := by
  intro l
  induction l with
  | nil => intro _; rfl
  | cons p rest ih =>
      intro hfail
      rcases ho : oracle p.name with _ | im
      · simp [tryEach, PotentialInputMethod.open_im, ho] at hfail ⊢
        exact ih hfail
      · simp [tryEach, PotentialInputMethod.open_im, ho] at hfail

theorem negotiationOrderSpec_append_stop (oracle : OpenImOracle) :
    ∀ (l : List PotentialInputMethod) (rest : List String),
      ((tryEach oracle l).2.2.isSome = true →
        negotiationOrderSpec oracle (l.map PotentialInputMethod.name ++ rest)
          = (tryEach oracle l).2.1) ∧
      ((tryEach oracle l).2.2 = none →
        negotiationOrderSpec oracle (l.map PotentialInputMethod.name ++ rest)
          = (tryEach oracle l).2.1 ++ negotiationOrderSpec oracle rest) := by
  intro l
  induction l with
  | nil => intro rest; exact ⟨by simp [tryEach], by intro _; simp [tryEach]⟩
  | cons p tail ih =>
      intro rest
      rcases ho : oracle p.name with _ | im
      · constructor
        · intro hsome
          simp [tryEach, PotentialInputMethod.open_im, ho] at hsome ⊢
          rw [negotiationOrderSpec]
          rw [if_neg (by simp [ho])]
          rw [(ih rest).1 (by simpa using hsome)]
        · intro hnone
          simp [tryEach, PotentialInputMethod.open_im, ho] at hnone ⊢
          rw [negotiationOrderSpec]
          rw [if_neg (by simp [ho])]
          rw [(ih rest).2 (by simpa using hnone)]
      · constructor
        · intro _
          simp [tryEach, PotentialInputMethod.open_im, ho]
          rw [negotiationOrderSpec]
          rw [if_pos (by simp [ho])]
        · intro hnone
          simp [tryEach, PotentialInputMethod.open_im, ho] at hnone

theorem name_comp_reset :
    PotentialInputMethod.name ∘ PotentialInputMethod.reset
      = PotentialInputMethod.name := by
  funext p
  rfl

theorem reset_map_name (l : List PotentialInputMethod) :
    (l.map PotentialInputMethod.reset).map PotentialInputMethod.name
      = l.map PotentialInputMethod.name := by
  simp [PotentialInputMethod.reset, Function.comp]

/-! ## Claim C5 -/

/-- Claim C5: negotiation resets every candidate's `failed` flag and then
tries the environment candidate, each server candidate in server order,
and the static fallbacks `"@im=local"` then `"@im="`, stopping at the
first success without mixing tiers: the attempted-name sequence of
`open_im` always equals the claim's ordering (`negotiationOrderSpec` over
`candidateNames`, whatever the stale `failed` flags were); and in the
claimed scenario — an environment candidate that fails and two server
candidates of which the second succeeds — exactly the 3 candidates
`[e, s1, s2]` are tried in order, the result is `XimServers` bound to the
second server candidate, and the fallbacks are never tried. -/
theorem negotiation_tries_tiers_in_order (oracle : OpenImOracle)
    (pim0 : PotentialInputMethods)
    (e s1 s2 : String) (b0 b1 b2 b3 b4 : Bool) (imh : Nat)
    (he : oracle e = none) (hs1 : oracle s1 = none) (hs2 : oracle s2 = some imh) :
    (PotentialInputMethods.open_im oracle pim0).2.1
      = negotiationOrderSpec oracle (candidateNames pim0) ∧
    (PotentialInputMethods.open_im oracle
        { xmodifiers := some { name := e, failed := b0 }
          xim_servers := some [{ name := s1, failed := b1 },
                               { name := s2, failed := b2 }]
          fallbacks := [{ name := "@im=local", failed := b3 },
                        { name := "@im=", failed := b4 }] }).2
      = ([e, s1, s2], InputMethodResult.XimServers { im := imh, name := s2 }) := by
  constructor
  · obtain ⟨xm, xs, fb⟩ := pim0
    have hfb := negotiationOrderSpec_append_stop oracle (fb.map PotentialInputMethod.reset) []
    rcases hfb3 : tryEach oracle (fb.map PotentialInputMethod.reset) with ⟨fb1, names3, r3⟩
    rw [hfb3] at hfb
    have hfbeq : negotiationOrderSpec oracle (fb.map PotentialInputMethod.name) = names3 := by
      rcases r3 with _ | im3
      · have := hfb.2 rfl
        rw [reset_map_name] at this
        simpa [negotiationOrderSpec] using this
      · have := hfb.1 rfl
        rw [reset_map_name] at this
        simpa using this
    rcases xs with _ | locales
    · rcases xm with _ | locale
      · simp only [PotentialInputMethods.open_im, PotentialInputMethods.reset,
          Option.map_none, hfb3, candidateNames]
        rcases r3 with _ | im3 <;>
          simp [negotiationOrderSpec, hfbeq]
      · rcases ho : oracle locale.name with _ | im0
        · rcases r3 with _ | im3 <;>
            simp [PotentialInputMethods.open_im, PotentialInputMethods.reset,
              PotentialInputMethod.open_im, PotentialInputMethod.reset,
              ho, hfb3, candidateNames, negotiationOrderSpec, hfbeq]
        · simp [PotentialInputMethods.open_im, PotentialInputMethods.reset,
            PotentialInputMethod.open_im, PotentialInputMethod.reset,
            ho, candidateNames, negotiationOrderSpec]
    · have hsv := negotiationOrderSpec_append_stop oracle
        (locales.map PotentialInputMethod.reset) (fb.map PotentialInputMethod.name)
      rcases hsv2 : tryEach oracle (locales.map PotentialInputMethod.reset)
        with ⟨sv1, names2, r2⟩
      rw [hsv2] at hsv
      have hsveq :
          negotiationOrderSpec oracle
            (locales.map PotentialInputMethod.name ++ fb.map PotentialInputMethod.name)
          = (if r2.isSome then names2 else names2 ++ names3) := by
        rcases r2 with _ | im2
        · have := hsv.2 rfl
          rw [reset_map_name] at this
          simpa [hfbeq] using this
        · have := hsv.1 rfl
          rw [reset_map_name] at this
          simpa using this
      rcases xm with _ | locale
      · rcases r2 with _ | im2
        · rcases r3 with _ | im3 <;>
            simp_all [PotentialInputMethods.open_im, PotentialInputMethods.reset,
              candidateNames]
        · simp_all [PotentialInputMethods.open_im, PotentialInputMethods.reset,
            candidateNames]
      · rcases ho : oracle locale.name with _ | im0
        · rcases r2 with _ | im2
          · rcases r3 with _ | im3 <;>
              simp_all [PotentialInputMethods.open_im, PotentialInputMethods.reset,
                PotentialInputMethod.open_im, PotentialInputMethod.reset,
                candidateNames, negotiationOrderSpec]
          · simp_all [PotentialInputMethods.open_im, PotentialInputMethods.reset,
              PotentialInputMethod.open_im, PotentialInputMethod.reset,
              candidateNames, negotiationOrderSpec]
        · simp [PotentialInputMethods.open_im, PotentialInputMethods.reset,
            PotentialInputMethod.open_im, PotentialInputMethod.reset,
            ho, candidateNames, negotiationOrderSpec]
  · simp [PotentialInputMethods.open_im, PotentialInputMethods.reset,
      PotentialInputMethod.open_im, PotentialInputMethod.reset, tryEach,
      he, hs1, hs2]

/-- Witness for C5: with environment candidate `"@im=ibus"` failing and
server candidates `"@im=a"`, `"@im=b"` where only the second opens,
negotiation tries exactly `["@im=ibus", "@im=a", "@im=b"]` and succeeds
on the second server candidate. -/
theorem negotiation_tries_tiers_in_order_witness :
    (PotentialInputMethods.open_im
        (fun n => if n = "@im=b" then some 7 else none)
        { xmodifiers := some { name := "@im=ibus", failed := true }
          xim_servers := some [{ name := "@im=a", failed := false },
                               { name := "@im=b", failed := true }]
          fallbacks := [{ name := "@im=local", failed := false },
                        { name := "@im=", failed := false }] }).2
      = (["@im=ibus", "@im=a", "@im=b"],
         InputMethodResult.XimServers { im := 7, name := "@im=b" }) :=
  (negotiation_tries_tiers_in_order
    (fun n => if n = "@im=b" then some 7 else none)
    { xmodifiers := none, xim_servers := none, fallbacks := [] }
    "@im=ibus" "@im=a" "@im=b" true false true false false 7
    (by simp) (by simp) (by simp)).2

/-! ## Claim C6: helper lemmas -/

theorem tryEach_list_names (oracle : OpenImOracle) :
    ∀ l : List PotentialInputMethod,
      ((tryEach oracle l).1).map PotentialInputMethod.name
        = l.map PotentialInputMethod.name := by
  intro l
  induction l with
  | nil => rfl
  | cons p rest ih =>
      rcases ho : oracle p.name with _ | im <;>
        simp [tryEach, PotentialInputMethod.open_im, ho, ih]

theorem tryEach_some_iff (oracle : OpenImOracle) :
    ∀ l : List PotentialInputMethod,
      (tryEach oracle l).2.2.isSome = true
        ↔ ∃ p ∈ l, (oracle p.name).isSome = true := by
  intro l
  induction l with
  | nil => simp [tryEach]
  | cons p rest ih =>
      rcases ho : oracle p.name with _ | im <;>
        simp [tryEach, PotentialInputMethod.open_im, ho, ih]

theorem open_im_names (oracle : OpenImOracle) (pim : PotentialInputMethods) :
    candidateNames (pim.open_im oracle).1 = candidateNames pim := by
  obtain ⟨xm, xs, fb⟩ := pim
  have hfbn := tryEach_list_names oracle (fb.map PotentialInputMethod.reset)
  rcases hfb3 : tryEach oracle (fb.map PotentialInputMethod.reset) with ⟨fb1, names3, r3⟩
  rw [hfb3] at hfbn
  simp only at hfbn
  rw [reset_map_name] at hfbn
  rcases xs with _ | locales
  · rcases xm with _ | locale
    · rcases r3 with _ | im3 <;>
        simp_all [PotentialInputMethods.open_im, PotentialInputMethods.reset,
          PotentialInputMethod.reset, Function.comp, candidateNames]
    · rcases ho : oracle locale.name with _ | im0 <;>
        rcases r3 with _ | im3 <;>
          simp_all [PotentialInputMethods.open_im, PotentialInputMethods.reset,
            PotentialInputMethod.open_im, PotentialInputMethod.reset,
            Function.comp, name_comp_reset, candidateNames]
  · have hsvn := tryEach_list_names oracle (locales.map PotentialInputMethod.reset)
    rcases hsv2 : tryEach oracle (locales.map PotentialInputMethod.reset)
      with ⟨sv1, names2, r2⟩
    rw [hsv2] at hsvn
    simp only at hsvn
    rw [reset_map_name] at hsvn
    rcases xm with _ | locale
    · rcases r2 with _ | im2 <;>
        rcases r3 with _ | im3 <;>
          simp_all [PotentialInputMethods.open_im, PotentialInputMethods.reset,
            PotentialInputMethod.reset, Function.comp, name_comp_reset, candidateNames]
    · rcases ho : oracle locale.name with _ | im0 <;>
        rcases r2 with _ | im2 <;>
          rcases r3 with _ | im3 <;>
            simp_all [PotentialInputMethods.open_im, PotentialInputMethods.reset,
              PotentialInputMethod.open_im, PotentialInputMethod.reset,
              Function.comp, name_comp_reset, candidateNames]

theorem tryEach_none_all (oracle : OpenImOracle) :
    ∀ l : List PotentialInputMethod,
      (tryEach oracle l).2.2 = none → ∀ p ∈ l, oracle p.name = none := by
  intro l
  induction l with
  | nil => intro _ p hp; simp at hp
  | cons q rest ih =>
      intro hfail p hp
      rcases ho : oracle q.name with _ | im
      · simp [tryEach, PotentialInputMethod.open_im, ho] at hfail
        rcases List.mem_cons.mp hp with hq | hq
        · rw [hq]; exact ho
        · exact ih hfail p hq
      · simp [tryEach, PotentialInputMethod.open_im, ho] at hfail

theorem map_reset_mem (fb : List PotentialInputMethod) (p : PotentialInputMethod)
    (hp : p ∈ fb) : p.reset ∈ fb.map PotentialInputMethod.reset :=
  List.mem_map.mpr ⟨p, hp, rfl⟩

theorem open_im_failure_all (oracle : OpenImOracle) (pim : PotentialInputMethods)
    (hfail : (pim.open_im oracle).2.2 = InputMethodResult.Failure) :
    ∀ n ∈ candidateNames pim, oracle n = none := by
  obtain ⟨xm, xs, fb⟩ := pim
  rcases hfb3 : tryEach oracle (fb.map PotentialInputMethod.reset)
    with ⟨fb1, names3, r3⟩
  have hfba : r3 = none → ∀ p ∈ fb, oracle p.name = none := by
    intro hr p hp
    have := tryEach_none_all oracle (fb.map PotentialInputMethod.reset)
      (by rw [hfb3, hr]) p.reset (map_reset_mem fb p hp)
    simpa [PotentialInputMethod.reset] using this
  rcases xs with _ | locales
  · rcases xm with _ | locale
    · have hr3 : r3 = none := by
        rcases r3 with _ | im3
        · rfl
        · exfalso
          revert hfail
          simp [PotentialInputMethods.open_im, PotentialInputMethods.reset, hfb3]
      intro n hn
      simp [candidateNames] at hn
      obtain ⟨p, hp, hpn⟩ := hn
      rw [← hpn]
      exact hfba hr3 p hp
    · rcases ho : oracle locale.name with _ | im0
      · have hr3 : r3 = none := by
          rcases r3 with _ | im3
          · rfl
          · exfalso
            revert hfail
            simp [PotentialInputMethods.open_im, PotentialInputMethods.reset,
              PotentialInputMethod.open_im, PotentialInputMethod.reset, ho, hfb3]
        intro n hn
        simp [candidateNames] at hn
        rcases hn with hn | ⟨p, hp, hpn⟩
        · rw [hn]; exact ho
        · rw [← hpn]; exact hfba hr3 p hp
      · exfalso
        revert hfail
        simp [PotentialInputMethods.open_im, PotentialInputMethods.reset,
          PotentialInputMethod.open_im, PotentialInputMethod.reset, ho]
  · rcases hsv2 : tryEach oracle (locales.map PotentialInputMethod.reset)
      with ⟨sv1, names2, r2⟩
    have hsva : r2 = none → ∀ p ∈ locales, oracle p.name = none := by
      intro hr p hp
      have := tryEach_none_all oracle (locales.map PotentialInputMethod.reset)
        (by rw [hsv2, hr]) p.reset (map_reset_mem locales p hp)
      simpa [PotentialInputMethod.reset] using this
    rcases xm with _ | locale
    · have hr2 : r2 = none := by
        rcases r2 with _ | im2
        · rfl
        · exfalso
          revert hfail
          simp [PotentialInputMethods.open_im, PotentialInputMethods.reset, hsv2]
      have hr3 : r3 = none := by
        rcases r3 with _ | im3
        · rfl
        · exfalso
          revert hfail
          simp [PotentialInputMethods.open_im, PotentialInputMethods.reset, hsv2,
            hr2, hfb3]
      intro n hn
      simp [candidateNames] at hn
      rcases hn with ⟨p, hp, hpn⟩ | ⟨p, hp, hpn⟩
      · rw [← hpn]; exact hsva hr2 p hp
      · rw [← hpn]; exact hfba hr3 p hp
    · rcases ho : oracle locale.name with _ | im0
      · have hr2 : r2 = none := by
          rcases r2 with _ | im2
          · rfl
          · exfalso
            revert hfail
            simp [PotentialInputMethods.open_im, PotentialInputMethods.reset,
              PotentialInputMethod.open_im, PotentialInputMethod.reset, ho, hsv2]
        have hr3 : r3 = none := by
          rcases r3 with _ | im3
          · rfl
          · exfalso
            revert hfail
            simp [PotentialInputMethods.open_im, PotentialInputMethods.reset,
              PotentialInputMethod.open_im, PotentialInputMethod.reset, ho, hsv2,
              hr2, hfb3]
        intro n hn
        simp [candidateNames] at hn
        rcases hn with hn | ⟨p, hp, hpn⟩ | ⟨p, hp, hpn⟩
        · rw [hn]; exact ho
        · rw [← hpn]; exact hsva hr2 p hp
        · rw [← hpn]; exact hfba hr3 p hp
      · exfalso
        revert hfail
        simp [PotentialInputMethods.open_im, PotentialInputMethods.reset,
          PotentialInputMethod.open_im, PotentialInputMethod.reset, ho]

theorem open_im_ok_isSome (oracle : OpenImOracle) (pim : PotentialInputMethods)
    (hsucc : ∃ n ∈ candidateNames pim, (oracle n).isSome = true) :
    ((pim.open_im oracle).2.2).ok.isSome = true := by
  rcases hres : (pim.open_im oracle).2.2 with im | im | im
  · simp [InputMethodResult.ok]
  · simp [InputMethodResult.ok]
  · simp [InputMethodResult.ok]
  · exfalso
    obtain ⟨n, hn, hns⟩ := hsucc
    have := open_im_failure_all oracle pim hres n hn
    rw [this] at hns
    simp at hns


theorem rebuildContexts_spec (createIc : CreateIcOracle) (im : Nat)
    (hic : ∀ a b, (createIc a b).isSome = true) :
    ∀ l : List (Window × Option ImeContext),
      ∃ l', rebuildContexts createIc im l = some l' ∧
        l'.map Prod.fst = l.map Prod.fst ∧
        (∀ w c0, Ime.lookupContext l w = some (some c0) →
          ∃ c1, Ime.lookupContext l' w = some (some c1) ∧
            c1.ic_spot = c0.ic_spot) := by
  intro l
  induction l with
  | nil => exact ⟨[], rfl, rfl, by intro w c0 h; simp [Ime.lookupContext] at h⟩
  | cons p rest ih =>
      obtain ⟨win, oc⟩ := p
      obtain ⟨ic, hicw⟩ := Option.isSome_iff_exists.mp (hic im win)
      obtain ⟨l', hl', hkeys, hlk⟩ := ih
      refine ⟨(win, some (ImeContext.mk ic
          ((oc.map ImeContext.ic_spot).getD (XPoint.mk 0 0)))) :: l',
        ?_, by simp [hkeys], ?_⟩
      · simp only [rebuildContexts, ImeContext.new, hicw, Option.map_some,
          Option.bind_eq_bind, Option.some_bind, hl']
        rfl
      · intro w c0 hwc
        by_cases hww : win = w
        · subst hww
          simp [Ime.lookupContext] at hwc ⊢
          rw [hwc]
          simp
        · have hfind : ∀ (oc' : Option ImeContext)
              (l0 : List (Window × Option ImeContext)),
              Ime.lookupContext ((win, oc') :: l0) w = Ime.lookupContext l0 w := by
            intro oc' l0
            unfold Ime.lookupContext
            rw [List.find?_cons_of_neg _ (by simp [hww])]
          rw [hfind] at hwc
          rw [hfind]
          exact hlk w c0 hwc

theorem replace_im_spec (oracle : OpenImOracle) (createIc : CreateIcOracle)
    (inner : ImeInner)
    (hsucc : ∃ n ∈ candidateNames inner.potential_input_methods,
      (oracle n).isSome = true)
    (hic : ∀ a b, (createIc a b).isSome = true) :
    ∃ inner', replace_im oracle createIc inner = some inner' ∧
      inner'.destroyed = false ∧
      inner'.instantiate_registered = inner.instantiate_registered ∧
      candidateNames inner'.potential_input_methods
        = candidateNames inner.potential_input_methods ∧
      inner'.contexts.map Prod.fst = inner.contexts.map Prod.fst ∧
      (∀ w c0, Ime.lookupContext inner.contexts w = some (some c0) →
        ∃ c1, Ime.lookupContext inner'.contexts w = some (some c1) ∧
          c1.ic_spot = c0.ic_spot) := by
  have hok := open_im_ok_isSome oracle inner.potential_input_methods hsucc
  obtain ⟨im1, him1⟩ := Option.isSome_iff_exists.mp hok
  obtain ⟨l', hl', hkeys, hlk⟩ :=
    rebuildContexts_spec createIc im1.im hic inner.contexts
  refine ⟨{ inner with
      im := im1.im
      potential_input_methods := (inner.potential_input_methods.open_im oracle).1
      contexts := l'
      destroyed := false }, ?_, rfl, rfl, open_im_names oracle _, hkeys, hlk⟩
  simp only [replace_im, him1, Option.bind_eq_bind, Option.some_bind, hl']
  rfl

/-! ## Claim C6 -/

/-- Claim C6: after a server destroy-notify (`xim_destroy_callback`)
followed by an instantiate-notify (`xim_instantiate_callback`), and
provided the negotiation oracle can open some candidate and the native
context creation succeeds, the rebuild reuses every existing context key
(`map Prod.fst` is preserved), the window that had a context gets a fresh
native context recorded with the previously recorded preedit spot, the
input method ends up not destroyed, `get_context` then returns the new
native handle — and `get_context` returns `None` whenever (and in this
model only while) the input method is in the destroyed state. -/
theorem ime_destroy_rebuild_preserves_contexts (oracle : OpenImOracle)
    (createIc : CreateIcOracle) (inner : ImeInner) (w : Window)
    (ctx : ImeContext)
    (hsucc : ∃ n ∈ candidateNames inner.potential_input_methods,
      (oracle n).isSome = true)
    (hic : ∀ a b, (createIc a b).isSome = true)
    (hw : Ime.lookupContext inner.contexts w = some (some ctx)) :
    ∃ inner1 inner2 ctx2,
      xim_destroy_callback oracle createIc inner = some inner1 ∧
      xim_instantiate_callback oracle createIc inner1 = some inner2 ∧
      inner2.contexts.map Prod.fst = inner.contexts.map Prod.fst ∧
      Ime.lookupContext inner2.contexts w = some (some ctx2) ∧
      ctx2.ic_spot = ctx.ic_spot ∧
      inner2.destroyed = false ∧
      Ime.get_context inner2 w = some ctx2.ic ∧
      (∀ (innerD : ImeInner) (win : Window),
        Ime.is_destroyed innerD = true → Ime.get_context innerD win = none) := by
  obtain ⟨inner1, hrep1, hd1, hreg1, hnames1, hkeys1, hlk1⟩ :=
    replace_im_spec oracle createIc
      { inner with destroyed := true, instantiate_registered := true }
      (by simpa using hsucc) hic
  obtain ⟨ctx1, hctx1, hspot1⟩ := hlk1 w ctx (by simpa using hw)
  obtain ⟨inner2, hrep2, hd2, hreg2, hnames2, hkeys2, hlk2⟩ :=
    replace_im_spec oracle createIc
      { inner1 with instantiate_registered := false }
      (by simpa [hnames1] using hsucc) hic
  obtain ⟨ctx2, hctx2, hspot2⟩ := hlk2 w ctx1 (by simpa using hctx1)
  refine ⟨inner1, inner2, ctx2, ?_, ?_, ?_, hctx2, hspot2.trans hspot1, hd2, ?_, ?_⟩
  · exact hrep1
  · exact hrep2
  · rw [hkeys2]
    simpa using hkeys1
  · simp [Ime.get_context, Ime.is_destroyed, hd2, hctx2]
  · intro innerD win hD
    simp [Ime.get_context, Ime.is_destroyed] at hD ⊢
    intro hD'
    exact absurd hD' (by simp [hD])

/-- Witness for C6: one window (id 4) with a context whose recorded spot
is `(11, 22)`; the server bounce (destroy + instantiate) leaves the
window keyed with a fresh context carrying the same spot. -/
theorem ime_destroy_rebuild_preserves_contexts_witness :
    ∃ inner1 inner2 ctx2,
      xim_destroy_callback (fun _ => some 5) (fun _ _ => some 9)
        { im := 1
          potential_input_methods :=
            PotentialInputMethods.new (some ("@im=ibus")) none
          contexts := [(4, some { ic := 2, ic_spot := { x := 11, y := 22 } })]
          destroyed := false
          instantiate_registered := false } = some inner1 ∧
      xim_instantiate_callback (fun _ => some 5) (fun _ _ => some 9) inner1
        = some inner2 ∧
      inner2.contexts.map Prod.fst = [4] ∧
      Ime.lookupContext inner2.contexts 4 = some (some ctx2) ∧
      ctx2.ic_spot = { x := 11, y := 22 } ∧
      inner2.destroyed = false ∧
      Ime.get_context inner2 4 = some ctx2.ic ∧
      (∀ (innerD : ImeInner) (win : Window),
        Ime.is_destroyed innerD = true → Ime.get_context innerD win = none) :=
  ime_destroy_rebuild_preserves_contexts (fun _ => some 5) (fun _ _ => some 9)
    { im := 1
      potential_input_methods := PotentialInputMethods.new (some ("@im=ibus")) none
      contexts := [(4, some { ic := 2, ic_spot := { x := 11, y := 22 } })]
      destroyed := false
      instantiate_registered := false } 4 { ic := 2, ic_spot := { x := 11, y := 22 } }
    ⟨"@im=ibus", by simp [candidateNames, PotentialInputMethods.new,
      PotentialInputMethod.from_string], by simp⟩
    (fun _ _ => rfl) (by simp [Ime.lookupContext])

/-! ## Claim C7 -/

/-- Claim C7: with a compose table holding one two-keysym dead-key
sequence `[k1, k2] ↦ out` and a fresh engine, pressing the two keys in
order through the pipeline (`get_keysym` then `get_utf8`, as
`Xkb::get_data_internal` runs them) yields: after the first press, no
text and status `Composing` (not yet `Composed`); after the second press,
exactly one committed string `out` (with the representative keysym), and
the engine — and with it the whole `XkbState` — back in the initial
state, so feeding the same sequence again yields the identical
independent result; and a key-release never feeds the engine: it leaves
the state unchanged and produces no text. -/
theorem compose_round_trip (k1 k2 : Keysym) (out : String) (rep : Keysym)
    (kc1 kc2 : Keycode) (sym : Keycode → Keysym) (u8 : Keycode → Option String)
    (hs1 : sym kc1 = k1) (hs2 : sym kc2 = k2) (hout : out ≠ "") :
    ∃ st1,
      XkbState.step
          { sym_of := sym, utf8_of := u8,
            compose := some (XkbCompose.fresh
              { sequences := [([k1, k2], out, rep)] }) } kc1
          ElementState.Pressed = some (st1, k1, none) ∧
      st1.is_composing = true ∧
      st1.is_composed = false ∧
      XkbState.step st1 kc2 ElementState.Pressed
        = some (XkbState.mk sym u8 (some (XkbCompose.fresh
            { sequences := [([k1, k2], out, rep)] })), rep, some out) ∧
      (∀ (st : XkbState) (kc : Keycode), ∃ ks,
        XkbState.step st kc ElementState.Released = some (st, ks, none)) := by
  have hrel : ∀ (st : XkbState) (kc : Keycode), ∃ ks,
      XkbState.step st kc ElementState.Released = some (st, ks, none) := by
    intro st kc
    rcases hcm : st.compose with _ | c
    · exact ⟨st.sym_of kc, by
        simp [XkbState.step, XkbState.get_keysym, XkbState.get_utf8,
          XkbState.is_composed, XkbState.is_composing,
          XkbState.compose_status_check, XkbState.feed_compose, hcm]⟩
    · by_cases hcs : c.compose_status = ComposeStatus.Composed
      · refine ⟨c.get_keysym, by
          simp [XkbState.step, XkbState.get_keysym, XkbState.get_utf8,
            XkbState.is_composed, XkbState.is_composing,
            XkbState.compose_status_check, XkbState.feed_compose, hcm, hcs]⟩
      · refine ⟨st.sym_of kc, by
          simp [XkbState.step, XkbState.get_keysym, XkbState.get_utf8,
            XkbState.is_composed, XkbState.is_composing,
            XkbState.compose_status_check, XkbState.feed_compose, hcm, hcs]⟩
  have hne : ¬([k1, k2] = [k1]) := by simp
  refine ⟨XkbState.mk sym u8 (some (XkbCompose.mk
      (ComposeState.mk { sequences := [([k1, k2], out, rep)] } [k1]
        ComposeStatus.Composing none)
      ComposeStatus.Composing)), ?_, ?_, ?_, ?_, hrel⟩
  · simp [XkbState.step, XkbState.get_keysym, XkbState.get_utf8,
      XkbState.is_composed, XkbState.is_composing, XkbState.compose_status_check,
      XkbState.feed_compose, XkbCompose.fresh, XkbCompose.feed_keysym,
      ComposeState.fresh, ComposeState.feed, ComposeTable.findSeq,
      ComposeTable.hasProperExtension, isProperPrefixOf, hs1, hne]
  · simp [XkbState.is_composing, XkbState.compose_status_check]
  · simp [XkbState.is_composed, XkbState.compose_status_check]
  · simp [XkbState.step, XkbState.get_keysym, XkbState.get_utf8,
      XkbState.is_composed, XkbState.is_composing, XkbState.compose_status_check,
      XkbState.feed_compose, XkbCompose.fresh, XkbCompose.feed_keysym,
      XkbCompose.get_keysym, XkbCompose.get_utf8, XkbCompose.reset,
      ComposeState.fresh, ComposeState.feed, ComposeState.resetState,
      ComposeState.get_one_sym, ComposeTable.findSeq,
      ComposeTable.hasProperExtension, isProperPrefixOf, hs2, hout]

/-- Witness for C7: the sequence `[1, 2] ↦ "é"` composed from key codes
10 and 11. -/
theorem compose_round_trip_witness :
    ∃ st1,
      XkbState.step
          { sym_of := fun kc => if kc = 10 then 1 else if kc = 11 then 2 else 99,
            utf8_of := fun _ => none,
            compose := some (XkbCompose.fresh
              { sequences := [([1, 2], "é", 5)] }) } 10
          ElementState.Pressed = some (st1, 1, none) ∧
      st1.is_composing = true ∧
      st1.is_composed = false ∧
      XkbState.step st1 11 ElementState.Pressed
        = some (XkbState.mk
            (fun kc => if kc = 10 then 1 else if kc = 11 then 2 else 99)
            (fun _ => none)
            (some (XkbCompose.fresh { sequences := [([1, 2], "é", 5)] })),
            5, some "é") ∧
      (∀ (st : XkbState) (kc : Keycode), ∃ ks,
        XkbState.step st kc ElementState.Released = some (st, ks, none)) :=
  compose_round_trip 1 2 "é" 5 10 11
    (fun kc => if kc = 10 then 1 else if kc = 11 then 2 else 99)
    (fun _ => none) (by simp) (by simp) (by simp)

/-! ## Claims C8 and C10: helper lemmas -/

theorem inner_pos_to_outer_id (f : FrameExtentsHeuristic) (x y : Int)
    (hpath : f.heuristic_path = FrameExtentsHeuristicPath.UnsupportedBordered) :
    f.inner_pos_to_outer x y = (x, y) := by
  unfold FrameExtentsHeuristic.inner_pos_to_outer
  rw [if_neg (by simp [hpath])]

theorem inner_pos_to_outer_subtracts (f : FrameExtentsHeuristic) (x y : Int)
    (hpath : f.heuristic_path ≠ FrameExtentsHeuristicPath.UnsupportedBordered)
    (hx : x.natAbs ≤ 2 ^ 30) (hy : y.natAbs ≤ 2 ^ 30)
    (hL : f.frame_extents.left ≤ 2 ^ 30) (hT : f.frame_extents.top ≤ 2 ^ 30) :
    f.inner_pos_to_outer x y
      = (x - (f.frame_extents.left : Int), y - (f.frame_extents.top : Int)) := by
  unfold FrameExtentsHeuristic.inner_pos_to_outer
  rw [if_pos hpath]
  have h1 : wrap32 (x - u64_as_i32 f.frame_extents.left)
      = x - (f.frame_extents.left : Int) := by
    unfold u64_as_i32 wrap32
    omega
  have h2 : wrap32 (y - u64_as_i32 f.frame_extents.top)
      = y - (f.frame_extents.top : Int) := by
    unfold u64_as_i32 wrap32
    omega
  rw [h1, h2]

theorem sat32_of_range (z : Int) (h1 : -(2 ^ 31) ≤ z) (h2 : z ≤ 2 ^ 31 - 1) :
    sat32 z = z := by
  unfold sat32
  rw [min_eq_left h2, max_eq_left h1]

theorem i32_as_u32_of_nonneg (z : Int) (h1 : 0 ≤ z) (h2 : z < 2 ^ 31) :
    i32_as_u32 z = z.toNat := by
  unfold i32_as_u32
  omega

/-! ## Claim C8 -/

/-- Counterexample to claim C8 as stated: with a window manager that
supports `_NET_FRAME_EXTENTS` and reports margins left/right 10, top/
bottom 5 for the nested window 1, the heuristic path is `Supported`, but
`inner_pos_to_outer` does not *add* the reported left/top margins — it
subtracts them: `(100, 100)` maps to `(90, 95)`, not `(110, 105)`. -/
theorem supported_adds_margins_counterexample :
    (get_frame_extents_heuristic supportedEnv 1).heuristic_path
      = FrameExtentsHeuristicPath.Supported ∧
    (get_frame_extents_heuristic supportedEnv 1).frame_extents.left = 10 ∧
    (get_frame_extents_heuristic supportedEnv 1).frame_extents.top = 5 ∧
    (get_frame_extents_heuristic supportedEnv 1).inner_pos_to_outer 100 100
      ≠ (100 + 10, 100 + 5) ∧
    (get_frame_extents_heuristic supportedEnv 1).inner_pos_to_outer 100 100
      = (100 - 10, 100 - 5) := by
  refine ⟨rfl, rfl, rfl, ?_, ?_⟩ <;> decide

/-- Claim C8 as amended (`inner_pos_to_outer` *subtracts* the reported
left/top margins; everything else as claimed): the frame-extents
heuristic is a three-way decision procedure — when the WM supports the
extents property the path is `Supported` (with the reported extents kept
for a nested window) and `inner_pos_to_outer` subtracts exactly the
stored left/top margins; when unsupported with a nested window the path
is `UnsupportedNested` with `left = right = width difference / 2`,
`top =` the inner-to-outer y offset and `bottom =` height difference
minus that offset; when unsupported and un-nested the path is
`UnsupportedBordered` and all four extents equal the reported border. -/
theorem frame_extents_heuristic_three_way (env : XQueryEnv) (window : Window)
    (x y : Int) (hx : x.natAbs ≤ 2 ^ 30) (hy : y.natAbs ≤ 2 ^ 30) :
    (∀ fe, env.frame_extents_prop = some fe →
      (get_frame_extents_heuristic env window).heuristic_path
        = FrameExtentsHeuristicPath.Supported ∧
      (isNested env window = true →
        (get_frame_extents_heuristic env window).frame_extents = fe ∧
        (fe.left ≤ 2 ^ 30 → fe.top ≤ 2 ^ 30 →
          (get_frame_extents_heuristic env window).inner_pos_to_outer x y
            = (x - (fe.left : Int), y - (fe.top : Int))))) ∧
    (env.frame_extents_prop = none → isNested env window = true →
      (get_frame_extents_heuristic env window).heuristic_path
        = FrameExtentsHeuristicPath.UnsupportedNested ∧
      (∀ off : Nat, env.inner_y_rel_root - env.outer_y = (off : Int) →
        off < 2 ^ 31 →
        (get_frame_extents_heuristic env window).frame_extents
          = FrameExtents.new ((env.outer_width - env.inner_width) / 2)
              ((env.outer_width - env.inner_width) / 2)
              off
              ((env.outer_height - env.inner_height) - off))) ∧
    (env.frame_extents_prop = none → isNested env window = false →
      (get_frame_extents_heuristic env window).heuristic_path
        = FrameExtentsHeuristicPath.UnsupportedBordered ∧
      (get_frame_extents_heuristic env window).frame_extents
        = FrameExtents.from_border env.border ∧
      (get_frame_extents_heuristic env window).frame_extents.left = env.border ∧
      (get_frame_extents_heuristic env window).frame_extents.right = env.border ∧
      (get_frame_extents_heuristic env window).frame_extents.top = env.border ∧
      (get_frame_extents_heuristic env window).frame_extents.bottom = env.border) := by
  refine ⟨?_, ?_, ?_⟩
  · intro fe hprop
    have hpath : (get_frame_extents_heuristic env window).heuristic_path
        = FrameExtentsHeuristicPath.Supported := by
      simp [get_frame_extents_heuristic, hprop]
    refine ⟨hpath, ?_⟩
    intro hnested
    have hfe : (get_frame_extents_heuristic env window).frame_extents = fe := by
      simp [get_frame_extents_heuristic, hprop, hnested]
    refine ⟨hfe, ?_⟩
    intro hL hT
    rw [inner_pos_to_outer_subtracts _ x y (by simp [hpath]) hx hy
      (by rw [hfe]; exact hL) (by rw [hfe]; exact hT), hfe]
  · intro hprop hnested
    constructor
    · simp [get_frame_extents_heuristic, hprop, hnested]
    · intro off hoff hlt
      have hsat : sat32 (env.inner_y_rel_root - env.outer_y) = (off : Int) := by
        rw [hoff]
        exact sat32_of_range _ (by omega) (by omega)
      have hu : i32_as_u32 (sat32 (env.inner_y_rel_root - env.outer_y)) = off := by
        rw [hsat, i32_as_u32_of_nonneg _ (by omega) (by omega)]
        simp
      simp [get_frame_extents_heuristic, hprop, hnested, hu]
  · intro hprop hnested
    refine ⟨?_, ?_, ?_, ?_, ?_, ?_⟩ <;>
      simp [get_frame_extents_heuristic, hprop, hnested,
        FrameExtents.from_border, FrameExtents.new]

/-- Witness for C8 (amended): the `Supported` environment with margins
⟨10, 10, 5, 5⟩ takes the `Supported` path and `(100, 100)` maps to
`(100 - 10, 100 - 5)`. -/
theorem frame_extents_heuristic_three_way_witness :
    (get_frame_extents_heuristic supportedEnv 1).heuristic_path
      = FrameExtentsHeuristicPath.Supported ∧
    (get_frame_extents_heuristic supportedEnv 1).frame_extents
      = FrameExtents.new 10 10 5 5 ∧
    (get_frame_extents_heuristic supportedEnv 1).inner_pos_to_outer 100 100
      = (100 - 10, 100 - 5) := by
  have h := frame_extents_heuristic_three_way supportedEnv 1 100 100
    (by decide) (by decide)
  have h1 := h.1 (FrameExtents.new 10 10 5 5) rfl
  have h2 := h1.2 (by decide)
  exact ⟨h1.1, h2.1, h2.2 (by decide) (by decide)⟩

/-! ## Claim C9 -/

/-- Counterexample to claim C9 as stated: a malformed native event is not
always dropped silently — an X11 keycode outside `8..=255` makes the
keycode conversions panic (`assert!` failure, modelled as `none`):
keycode 0 panics in `scancode_from_keycode`, and keycodes 300 and 7 panic
in `xkb_keycode_from_x11_keycode`. -/
theorem keycode_out_of_range_panics :
    scancode_from_keycode 0 = none ∧
    xkb_keycode_from_x11_keycode 300 = none ∧
    xkb_keycode_from_x11_keycode 7 = none := by
  refine ⟨?_, ?_, ?_⟩ <;> decide

/-- Claim C9 as amended: unknown or undocumented native events are
dropped silently where the translator has a guard — a nil `NSEvent` and
the undocumented macOS event type 21 are dropped without panicking — but
the X11 keycode conversions are guarded by assertions instead: they
succeed exactly on keycodes `8..=255` (returning `keycode - 8` and the
keycode) and panic, rather than dropping the event, outside that range. -/
theorem keycode_range_guards (k : Int) :
    (8 ≤ k → k ≤ 255 →
      scancode_from_keycode k = some (k - 8).toNat ∧
      xkb_keycode_from_x11_keycode k = some k.toNat) ∧
    (k < 8 → scancode_from_keycode k = none) ∧
    ((k < 8 ∨ 255 < k) → xkb_keycode_from_x11_keycode k = none) ∧
    translate_event_guard_drops true 0 = true ∧
    translate_event_guard_drops false 21 = true := by
  refine ⟨?_, ?_, ?_, rfl, by simp [translate_event_guard_drops]⟩
  · intro h8 h255
    constructor
    · unfold scancode_from_keycode
      rw [if_pos (by omega)]
    · unfold xkb_keycode_from_x11_keycode
      rw [if_pos ⟨h8, h255⟩]
  · intro h8
    unfold scancode_from_keycode
    rw [if_neg (by omega)]
  · intro hout
    unfold xkb_keycode_from_x11_keycode
    rw [if_neg (by omega)]

/-- Witness for C9 (amended): keycode 12 converts to scancode 4, keycode
300 panics. -/
theorem keycode_range_guards_witness :
    scancode_from_keycode 12 = some 4 ∧
    xkb_keycode_from_x11_keycode 300 = none :=
  ⟨((keycode_range_guards 12).1 (by decide) (by decide)).1,
   (keycode_range_guards 300).2.2.1 (Or.inr (by decide))⟩

/-! ## Claim C10 -/

/-- Claim C10: `inner_pos_to_outer` applies the stored frame extents only
on the `Supported` and `UnsupportedNested` paths, where it returns
`(x - left, y - top)`; on the `UnsupportedBordered` path it returns the
input coordinates unchanged — whatever the stored extents are, including
a nonzero border recorded on all four sides. -/
theorem inner_pos_applied_except_bordered (f : FrameExtentsHeuristic)
    (x y : Int) (hx : x.natAbs ≤ 2 ^ 30) (hy : y.natAbs ≤ 2 ^ 30)
    (hL : f.frame_extents.left ≤ 2 ^ 30) (hT : f.frame_extents.top ≤ 2 ^ 30) :
    (f.heuristic_path = FrameExtentsHeuristicPath.UnsupportedBordered →
      f.inner_pos_to_outer x y = (x, y)) ∧
    (f.heuristic_path ≠ FrameExtentsHeuristicPath.UnsupportedBordered →
      f.inner_pos_to_outer x y
        = (x - (f.frame_extents.left : Int), y - (f.frame_extents.top : Int))) :=
  ⟨fun hpath => inner_pos_to_outer_id f x y hpath,
   fun hpath => inner_pos_to_outer_subtracts f x y hpath hx hy hL hT⟩

/-- Witness for C10: a `UnsupportedBordered` heuristic with all four
extents equal to the nonzero border 3 leaves `(100, 200)` unchanged. -/
theorem inner_pos_applied_except_bordered_witness :
    FrameExtentsHeuristic.inner_pos_to_outer
      { frame_extents := FrameExtents.from_border 3
        heuristic_path := FrameExtentsHeuristicPath.UnsupportedBordered }
      100 200 = (100, 200) :=
  (inner_pos_applied_except_bordered
    { frame_extents := FrameExtents.from_border 3
      heuristic_path := FrameExtentsHeuristicPath.UnsupportedBordered }
    100 200 (by decide) (by decide) (by decide) (by decide)).1 rfl

end Winit
